import Mathlib

/-
  Verification of the Zion `node_manager` native contract
  (src/contracts/native/cross_chain_manager/okex/okex_handler.go,
  package node_manager section): the epoch-proposal/voting state machine
  (`Propose`, `Vote`, `dirtyJob`) and the consensus-signature gate
  (`CheckConsensusSigns`).

  The top-level operations are translated directly from the Go source.
  Storage helpers (storeEpoch, storeVote, findVoteTo, ...), the quorum
  calculator and the authority check are not present in the source
  excerpt; they are modelled from the specification's EpochStore /
  QuorumCalculator / AuthorityChecker descriptions, each marked
  `Modelled from the spec:` in its doc comment.
-/

namespace NodeManager

/-- Validator account address (20-byte identifier, modelled as Nat). -/
abbrev Address := Nat

/-- Modelled from the spec: Peer is an address plus a public key. -/
structure Peer where
  address : Address
  pubKey  : Nat
deriving DecidableEq

/-- Modelled from the spec: the chain's standard account-derivation rule,
which maps a public key to the address it controls (an abstract injective
derivation; the concrete hash is out of scope). -/
def deriveAddress (pk : Nat) : Address := pk

/-- Modelled from the spec: checkPeer accepts a peer iff its public key
derives its claimed address. -/
def checkPeer (p : Peer) : Bool := deriveAddress p.pubKey == p.address

/-- Proposal status of an `EpochInfo` (ProposalStatusPropose / Passed). -/
inductive ProposalStatus where
  | proposed
  | passed
deriving DecidableEq

/-- EpochInfo: a numbered era with a fixed validator set. -/
structure EpochInfo where
  id : Nat
  peers : List Peer
  startHeight : Nat
  proposer : Address
  status : ProposalStatus
deriving DecidableEq

/-- Modelled from the spec: the deterministic content hash of an
`EpochInfo`, taken over all fields except the transient status
(so that marking a proposal Passed does not change its storage key).
Modelled as the content tuple itself: an ideal collision-free hash. -/
structure EpochHash where
  id : Nat
  peers : List Peer
  startHeight : Nat
  proposer : Address
deriving DecidableEq

/-- Modelled from the spec: `EpochInfo.Hash`. -/
def EpochInfo.Hash (e : EpochInfo) : EpochHash :=
  { id := e.id, peers := e.peers, startHeight := e.startHeight, proposer := e.proposer }

/-- Modelled from the spec: `Members` returns the epoch's peers. -/
def EpochInfo.Members (e : EpochInfo) : List Peer := e.peers

/-- Modelled from the spec: `MemberList` returns the member addresses. -/
def EpochInfo.MemberList (e : EpochInfo) : List Address := e.peers.map Peer.address

/-- Modelled from the spec: the Byzantine quorum for a group of size n
tolerating f = (n-1)/3 faults, i.e. n - (n-1)/3 (for n = 4 this is 3,
matching the spec's end-to-end scenario). -/
def EpochInfo.QuorumSize (e : EpochInfo) : Nat :=
  e.Members.length - (e.Members.length - 1) / 3

/-- Modelled from the spec: the number of current-epoch members retained
in a candidate peer list, overlap counted by address. -/
def EpochInfo.OldMemberNum (e : EpochInfo) (candidate : List Peer) : Nat :=
  (e.peers.filter (fun p => candidate.any (fun q => q.address == p.address))).length

/-- ConsensusSignRecord: an arbitrary (method, input) pair submitted for
multi-validator approval. -/
structure ConsensusSign where
  method : String
  input : List Nat
deriving DecidableEq

/-- Modelled from the spec: identity of a ConsensusSign is its content
hash over (method, input); modelled as the content pair itself. -/
structure SignHash where
  method : String
  input : List Nat
deriving DecidableEq

/-- Modelled from the spec: `ConsensusSign.Hash`. -/
def ConsensusSign.Hash (c : ConsensusSign) : SignHash :=
  { method := c.method, input := c.input }

/-- Modelled from the spec: the EpochStore key-value state owned by the
contract: current epoch hash, epoch records by hash, per-epoch-id proposal
index, per-proposal vote sets, per-(epoch,voter) last-voted pointer,
per-epoch-id approval proof, and the consensus-sign records/signers. -/
structure State where
  currentHash : Option EpochHash
  epochs : EpochHash → Option EpochInfo
  proposals : Nat → List EpochHash
  votes : EpochHash → List Address
  voteTo : Nat → Address → Option EpochHash
  epochProof : Nat → Option EpochHash
  signs : SignHash → Option ConsensusSign
  signers : SignHash → List Address

/-- Transaction context supplied by the host dispatcher: block height,
transaction origin and immediate caller. -/
structure Ctx where
  blockHeight : Nat
  txOrigin : Address
  caller : Address

/-- Errors returned by the contract methods (the Go error sentinels). -/
inductive Err where
  | epochNotExist
  | invalidAuthority
  | invalidInput
  | invalidPeers
  | peersNum
  | invalidPubKey
  | oldParticipantsNumber
  | proposalStartHeight
  | duplicateProposal
  | proposalsNum
  | storage
  | emitLog
  | proposalNotExist
  | proposalPassed
  | invalidEpoch
  | voteHeight
  | consensusSignNotExist
  | invalidSign
  | duplicateSigner
deriving DecidableEq

/-- Result of Propose / Vote: ByteSuccess with nil error, or ByteFailed
with an error sentinel. -/
inductive CallResult where
  | success
  | failure (err : Err)
deriving DecidableEq

/-- Result of CheckConsensusSigns: (approved, nil) or (false, error). -/
inductive SignResult where
  | success (approved : Bool)
  | failure (err : Err)
deriving DecidableEq

/-- Observable events: the emitted event logs plus the epochChangeFeed
publication (EpochChangeEvent with fields EpochID, StartHeight,
Validators, Hash, exactly as the Go struct is filled in `Vote`). -/
inductive Event where
  | proposed (epoch : EpochInfo)
  | voted (epochID : Nat) (proposal : EpochHash) (votedNum groupSize : Nat)
  | epochChanged (last cur : EpochInfo)
  | epochChangeFeedSent (epochID startHeight : Nat) (validators : List Address) (hash : EpochHash)
  | consensusSigned (sign : ConsensusSign) (signer : Address) (num : Nat)
deriving DecidableEq

/-- Recognizer for the epoch-change feed publication event. -/
def isEpochChangeFeedSent : Event → Bool
  | .epochChangeFeedSent _ _ _ _ => true
  | _ => false

/-- Constants of the node manager (values from the source). -/
def MinEpochValidPeriod : Nat := 60

/-- Default epoch valid period (source constant). -/
def DefaultEpochValidPeriod : Nat := 86400

/-- Maximum epoch valid period (source constant 86400 * 10). -/
def MaxEpochValidPeriod : Nat := 864000

/-- Minimum proposal peers length (source constant, n >= 3f + 1). -/
def MinProposalPeersLen : Nat := 4

/-- Maximum proposal peers length (source constant). -/
def MaxProposalPeersLen : Nat := 100

/-- Maximum proposals per validator per epoch (source constant). -/
def MaxProposalNumPerEpoch : Nat := 3

/-- Minimum vote effective period (source constant). -/
def MinVoteEffectivePeriod : Nat := 10

/-- Modelled from the spec: GetCurrentEpoch reads the current epoch hash
and resolves it against the epoch records. -/
def GetCurrentEpoch (s : State) : Option EpochInfo :=
  match s.currentHash with
  | none => none
  | some h => s.epochs h

/-- Modelled from the spec: checkAuthority fails unless the claimed
origin is a member of the active epoch and the caller equals the
dispatcher-verified transaction origin. -/
def checkAuthority (origin caller : Address) (epoch : EpochInfo) : Bool :=
  epoch.MemberList.contains origin && caller == origin

/-- Modelled from the spec: storeEpoch persists an EpochInfo under its
content hash. -/
def storeEpoch (s : State) (e : EpochInfo) : State :=
  { s with epochs := fun h => if h = e.Hash then some e else s.epochs h }

/-- Modelled from the spec: delEpoch deletes the EpochInfo stored at a
hash. -/
def delEpoch (s : State) (h : EpochHash) : State :=
  { s with epochs := fun h' => if h' = h then none else s.epochs h' }

/-- Modelled from the spec: getProposals reads the proposal index for an
epoch id. -/
def getProposals (s : State) (id : Nat) : List EpochHash := s.proposals id

/-- Modelled from the spec: checkProposal tests whether a hash is already
indexed under an epoch id. -/
def checkProposal (s : State) (id : Nat) (h : EpochHash) : Bool :=
  (s.proposals id).contains h

/-- Modelled from the spec: findProposal tests whether a proposal hash is
indexed under an epoch id. -/
def findProposal (s : State) (id : Nat) (h : EpochHash) : Bool :=
  (s.proposals id).contains h

/-- Modelled from the spec: storeProposal indexes a proposal hash under
an epoch id. -/
def storeProposal (s : State) (id : Nat) (h : EpochHash) : State :=
  { s with proposals := fun i =>
      if i = id then
        (if (s.proposals id).contains h then s.proposals id else h :: s.proposals id)
      else s.proposals i }

/-- Modelled from the spec: delProposal removes a proposal hash from the
index of an epoch id. -/
def delProposal (s : State) (id : Nat) (h : EpochHash) : State :=
  { s with proposals := fun i =>
      if i = id then (s.proposals id).filter (fun h' => h' != h) else s.proposals i }

/-- Modelled from the spec: proposalsNum counts the proposals indexed
under an epoch id whose stored record was authored by the proposer. -/
def proposalsNum (s : State) (id : Nat) (proposer : Address) : Nat :=
  ((s.proposals id).filter (fun h =>
    match s.epochs h with
    | some ep => ep.proposer == proposer
    | none => false)).length

/-- Modelled from the spec: voteSize is the cardinality of a proposal's
vote set. -/
def voteSize (s : State) (h : EpochHash) : Nat := (s.votes h).length

/-- Modelled from the spec: storeVote adds a voter to a proposal's vote
set (a set: no duplicate entries). -/
def storeVote (s : State) (h : EpochHash) (v : Address) : State :=
  { s with votes := fun h' =>
      if h' = h then
        (if (s.votes h).contains v then s.votes h else v :: s.votes h)
      else s.votes h' }

/-- Modelled from the spec: deleteVote removes a voter from a proposal's
vote set. -/
def deleteVote (s : State) (h : EpochHash) (v : Address) : State :=
  { s with votes := fun h' =>
      if h' = h then (s.votes h).filter (fun a => a != v) else s.votes h' }

/-- Modelled from the spec: clearVotes deletes a proposal's entire vote
set. -/
def clearVotes (s : State) (h : EpochHash) : State :=
  { s with votes := fun h' => if h' = h then [] else s.votes h' }

/-- Modelled from the spec: findVoteTo reads a voter's last-voted
proposal pointer for an epoch id (EmptyHash, i.e. none, if unset). -/
def findVoteTo (s : State) (id : Nat) (v : Address) : Option EpochHash := s.voteTo id v

/-- Modelled from the spec: storeVoteTo records a voter's last-voted
proposal pointer for an epoch id. -/
def storeVoteTo (s : State) (id : Nat) (v : Address) (h : EpochHash) : State :=
  { s with voteTo := fun i a => if i = id ∧ a = v then some h else s.voteTo i a }

/-- Modelled from the spec: delVoteTo deletes a voter's last-voted
proposal pointer for an epoch id. -/
def delVoteTo (s : State) (id : Nat) (v : Address) : State :=
  { s with voteTo := fun i a => if i = id ∧ a = v then none else s.voteTo i a }

/-- Modelled from the spec: storeCurrentEpochHash records the hash of the
active epoch. -/
def storeCurrentEpochHash (s : State) (h : EpochHash) : State :=
  { s with currentHash := some h }

/-- Modelled from the spec: storeEpochProof records the approval proof
(the winning hash) for an epoch id. -/
def storeEpochProof (s : State) (id : Nat) (h : EpochHash) : State :=
  { s with epochProof := fun i => if i = id then some h else s.epochProof i }

/-- Modelled from the spec: getEpochProof reads the stored approval hash
for an epoch id. -/
def getEpochProof (s : State) (id : Nat) : Option EpochHash := s.epochProof id

/-- Modelled from the spec: storeSign persists a consensus-sign record
under its content hash. -/
def storeSign (s : State) (c : ConsensusSign) : State :=
  { s with signs := fun h => if h = c.Hash then some c else s.signs h }

/-- Modelled from the spec: findSigner tests whether a signer already
contributed to a sign hash's signer set. -/
def findSigner (s : State) (h : SignHash) (v : Address) : Bool :=
  (s.signers h).contains v

/-- Modelled from the spec: getSignerSize is the cardinality of a sign
hash's signer set. -/
def getSignerSize (s : State) (h : SignHash) : Nat := (s.signers h).length

/-- Modelled from the spec: storeSigner adds a signer to a sign hash's
signer set (a set: no duplicate entries). -/
def storeSigner (s : State) (h : SignHash) (v : Address) : State :=
  { s with signers := fun h' =>
      if h' = h then
        (if (s.signers h).contains v then s.signers h else v :: s.signers h)
      else s.signers h' }

/-- Modelled from the spec: insertion step of the canonical peer order
(sorted by address before hashing). -/
def insertPeer (p : Peer) : List Peer → List Peer
  | [] => [p]
  | q :: qs => if p.address ≤ q.address then p :: q :: qs else q :: insertPeer p qs

/-- Modelled from the spec: sort.Sort(peers), canonical order by address. -/
def sortPeers : List Peer → List Peer
  | [] => []
  | p :: ps => insertPeer p (sortPeers ps)

/-- Propose: translated from the source (lines 699-808 of the Go file).
A current validator proposes a new epoch-change schema. -/
def Propose (s : State) (ctx : Ctx) (peersIn : List Peer) (startHeightIn : Nat) :
    State × CallResult × List Event :=
  match GetCurrentEpoch s with
  | none => (s, .failure .epochNotExist, [])
  | some curEpoch =>
    if checkAuthority ctx.txOrigin ctx.caller curEpoch = false then
      (s, .failure .invalidAuthority, [])
    else if peersIn.isEmpty then (s, .failure .invalidPeers, [])
    else if peersIn.length < MinProposalPeersLen ∨ MaxProposalPeersLen < peersIn.length then
      (s, .failure .peersNum, [])
    else if peersIn.all checkPeer = false then (s, .failure .invalidPubKey, [])
    else if curEpoch.OldMemberNum peersIn < curEpoch.QuorumSize then
      (s, .failure .oldParticipantsNumber, [])
    else if 0 < startHeightIn ∧
        (startHeightIn < ctx.blockHeight + MinEpochValidPeriod ∨
         ctx.blockHeight + MaxEpochValidPeriod < startHeightIn) then
      (s, .failure .proposalStartHeight, [])
    else
      let startHeight :=
        if 0 < startHeightIn then startHeightIn else ctx.blockHeight + DefaultEpochValidPeriod
      let epochID := curEpoch.id + 1
      let epoch : EpochInfo :=
        { id := epochID, peers := sortPeers peersIn, startHeight := startHeight,
          proposer := ctx.txOrigin, status := ProposalStatus.proposed }
      let proposal := epoch.Hash
      if checkProposal s epochID proposal then (s, .failure .duplicateProposal, [])
      else if MaxProposalNumPerEpoch ≤ proposalsNum s epochID ctx.txOrigin then
        (s, .failure .proposalsNum, [])
      else
        let s1 := storeEpoch s epoch
        let s2 := storeProposal s1 epochID proposal
        let s3 := storeVote s2 proposal ctx.txOrigin
        let s4 := storeVoteTo s3 epochID ctx.txOrigin proposal
        (s4, .success, [Event.proposed epoch])

/-- dirtyJob: translated from the source (lines 941-960). After a
transition, purge losing proposals for the new epoch id: delete their
EpochInfo, index entry and vote set; inside that same loop, delete the
outgoing members' last-voted pointers. -/
def dirtyStep (curID : Nat) (curHash : EpochHash) (last : Option EpochInfo)
    (acc : State) (v : EpochHash) : State :=
  if v = curHash then acc
  else
    let a := clearVotes (delProposal (delEpoch acc v) curID v) v
    match last with
    | none => a
    | some l => l.peers.foldl (fun b pr => delVoteTo b curID pr.address) a

/-- dirtyJob iterates the pre-read proposal index of the new epoch's id,
applying `dirtyStep` for each indexed hash. -/
def dirtyJob (s : State) (last : Option EpochInfo) (cur : EpochInfo) : State :=
  (getProposals s cur.id).foldl (dirtyStep cur.id cur.Hash last) s

/-- voteCore: the tail of `Vote` after the vote-switch filter (source
lines 890-937): record the pointer and the vote, emit the voted event,
and on hitting the quorum edge perform the epoch transition. -/
def voteCore (s : State) (ctx : Ctx) (curEpoch epoch : EpochInfo)
    (epochID : Nat) (proposal : EpochHash) : State × CallResult × List Event :=
  let voter := ctx.txOrigin
  let s1 := storeVoteTo s epochID voter proposal
  let s2 := storeVote s1 proposal voter
  let sizeAfterVote := voteSize s2 proposal
  let groupSize := curEpoch.Members.length
  if sizeAfterVote = curEpoch.QuorumSize then
    let passedEpoch : EpochInfo := { epoch with status := ProposalStatus.passed }
    let s3 := storeEpoch s2 passedEpoch
    let s4 := storeCurrentEpochHash s3 passedEpoch.Hash
    let s5 := storeEpochProof s4 passedEpoch.id passedEpoch.Hash
    let s6 := dirtyJob s5 (some curEpoch) passedEpoch
    (s6, .success,
      [Event.voted epochID proposal sizeAfterVote groupSize,
       Event.epochChanged curEpoch passedEpoch,
       Event.epochChangeFeedSent passedEpoch.startHeight passedEpoch.startHeight
         passedEpoch.MemberList passedEpoch.Hash])
  else
    (s2, .success, [Event.voted epochID proposal sizeAfterVote groupSize])

/-- Vote: translated from the source (lines 811-938). A current validator
votes for a proposal of the next epoch id; the quorum-edge vote performs
the validator-set transition. The epochChangeFeed publication fills the
EpochID field with `epoch.StartHeight`, exactly as the source does. -/
def Vote (s : State) (ctx : Ctx) (epochID : Nat) (proposal : EpochHash) :
    State × CallResult × List Event :=
  match GetCurrentEpoch s with
  | none => (s, .failure .epochNotExist, [])
  | some curEpoch =>
    if checkAuthority ctx.txOrigin ctx.caller curEpoch = false then
      (s, .failure .invalidAuthority, [])
    else if epochID ≠ curEpoch.id + 1 then (s, .failure .invalidInput, [])
    else if findProposal s epochID proposal = false then (s, .failure .proposalNotExist, [])
    else
      match s.epochs proposal with
      | none => (s, .failure .epochNotExist, [])
      | some epoch =>
        if epoch.status = ProposalStatus.passed then (s, .failure .proposalPassed, [])
        else if epochID ≠ epoch.id then (s, .failure .invalidEpoch, [])
        else if proposal ≠ epoch.Hash then (s, .failure .invalidEpoch, [])
        else if epoch.startHeight ≤ ctx.blockHeight + MinVoteEffectivePeriod then
          (s, .failure .voteHeight, [])
        else if curEpoch.QuorumSize ≤ voteSize s proposal then (s, .success, [])
        else
          match findVoteTo s epochID ctx.txOrigin with
          | some lastVote2 =>
            if lastVote2 = proposal then (s, .success, [])
            else
              voteCore (deleteVote (delVoteTo s epochID ctx.txOrigin) proposal ctx.txOrigin)
                ctx curEpoch epoch epochID proposal
          | none => voteCore s ctx curEpoch epoch epochID proposal

/-- checkConsensusSignsCore: the tail of `CheckConsensusSigns` after the
record lookup (source lines 1022-1045): duplicate-signer check, idempotent
fast path at quorum, then record the signer and report approval. -/
def checkConsensusSignsCore (s : State) (epoch : EpochInfo) (sign : ConsensusSign)
    (signer : Address) : State × SignResult × List Event :=
  if findSigner s sign.Hash signer then (s, .failure .duplicateSigner, [])
  else
    let sizeBeforeSign := getSignerSize s sign.Hash
    if epoch.QuorumSize ≤ sizeBeforeSign then (s, .success true, [])
    else
      let s2 := storeSigner s sign.Hash signer
      let sizeAfterSign := getSignerSize s2 sign.Hash
      (s2, .success (decide (epoch.QuorumSize ≤ sizeAfterSign)),
        [Event.consensusSigned sign signer sizeAfterSign])

/-- CheckConsensusSigns: translated from the source (lines 988-1046). -/
def CheckConsensusSigns (s : State) (ctx : Ctx) (method : String) (input : List Nat)
    (signer : Address) : State × SignResult × List Event :=
  match GetCurrentEpoch s with
  | none => (s, .failure .epochNotExist, [])
  | some epoch =>
    if checkAuthority signer ctx.caller epoch = false then
      (s, .failure .invalidAuthority, [])
    else
      let sign : ConsensusSign := { method := method, input := input }
      match s.signs sign.Hash with
      | none => checkConsensusSignsCore (storeSign s sign) epoch sign signer
      | some exist =>
        if exist.Hash ≠ sign.Hash then (s, .failure .invalidSign, [])
        else checkConsensusSignsCore s epoch sign signer

/-- A bootstrap state: one active (passed) epoch record, everything else
empty. -/
def mkGenesis (ep : EpochInfo) : State :=
  { currentHash := some ep.Hash
    epochs := fun h => if h = ep.Hash then some ep else none
    proposals := fun _ => []
    votes := fun _ => []
    voteTo := fun _ _ => none
    epochProof := fun _ => none
    signs := fun _ => none
    signers := fun _ => [] }

/-- Reachable storage states: a bootstrap state with a passed active epoch
of valid size, closed under the three state-mutating operations. -/
inductive Reachable : State → Prop where
  | init (ep : EpochInfo) (hst : ep.status = ProposalStatus.passed)
      (hlo : 4 ≤ ep.peers.length) (hhi : ep.peers.length ≤ 100) :
      Reachable (mkGenesis ep)
  | propose (s : State) (ctx : Ctx) (peersIn : List Peer) (sh : Nat) :
      Reachable s → Reachable (Propose s ctx peersIn sh).1
  | vote (s : State) (ctx : Ctx) (e : Nat) (p : EpochHash) :
      Reachable s → Reachable (Vote s ctx e p).1
  | sign (s : State) (ctx : Ctx) (m : String) (i : List Nat) (a : Address) :
      Reachable s → Reachable (CheckConsensusSigns s ctx m i a).1

/-- The inductive storage invariant of the node manager: the current epoch
resolves; epoch records sit at their own hash with valid peer counts;
passed records belong to past ids; proposed records belong to the next id
and are indexed there; vote sets of unknown hashes are empty; indexed
hashes carry their index id; and every proposed record's tally is strictly
below the active quorum. -/
structure Inv (s : State) : Prop where
  cur_exists : ∃ cur, GetCurrentEpoch s = some cur
  hash_key : ∀ h ep, s.epochs h = some ep → ep.Hash = h
  peers_lo : ∀ h ep, s.epochs h = some ep → 4 ≤ ep.peers.length
  peers_hi : ∀ h ep, s.epochs h = some ep → ep.peers.length ≤ 100
  passed_le : ∀ h ep cur, GetCurrentEpoch s = some cur → s.epochs h = some ep →
    ep.status = ProposalStatus.passed → ep.id ≤ cur.id
  proposed_id : ∀ h ep cur, GetCurrentEpoch s = some cur → s.epochs h = some ep →
    ep.status = ProposalStatus.proposed → ep.id = cur.id + 1
  proposed_indexed : ∀ h ep cur, GetCurrentEpoch s = some cur → s.epochs h = some ep →
    ep.status = ProposalStatus.proposed → h ∈ s.proposals (cur.id + 1)
  votes_empty : ∀ h, s.epochs h = none → s.votes h = []
  index_id : ∀ i h, h ∈ s.proposals i → h.id = i
  tally_lt : ∀ h ep cur, GetCurrentEpoch s = some cur → s.epochs h = some ep →
    ep.status = ProposalStatus.proposed → voteSize s h < cur.QuorumSize

/-- Concrete peer 1 for the test scenarios. -/
def p1 : Peer := ⟨1, 1⟩

/-- Concrete peer 2 for the test scenarios. -/
def p2 : Peer := ⟨2, 2⟩

/-- Concrete peer 3 for the test scenarios. -/
def p3 : Peer := ⟨3, 3⟩

/-- Concrete peer 4 for the test scenarios. -/
def p4 : Peer := ⟨4, 4⟩

/-- Concrete peer 5 for the test scenarios. -/
def p5 : Peer := ⟨5, 5⟩

/-- The 4-member candidate list (also the genesis member set). -/
def peersA : List Peer := [p1, p2, p3, p4]

/-- A 5-member candidate list retaining all 4 old members. -/
def peersB : List Peer := [p1, p2, p3, p4, p5]

/-- Genesis epoch: id 0, members 1..4, passed. -/
def ep0 : EpochInfo :=
  { id := 0, peers := peersA, startHeight := 0, proposer := 1,
    status := ProposalStatus.passed }

/-- Genesis storage state for the scenarios. -/
def genesisState : State := mkGenesis ep0

/-- Context at block height 100 with origin = caller = a. -/
def ctxOf (a : Address) : Ctx := { blockHeight := 100, txOrigin := a, caller := a }

/-- The hash of proposal A (epoch id 1, members 1..4, proposed by 1,
default start height 100 + 86400). -/
def hashA : EpochHash := { id := 1, peers := peersA, startHeight := 86500, proposer := 1 }

/-- The hash of proposal B (epoch id 1, members 1..5, proposed by 2). -/
def hashB : EpochHash := { id := 1, peers := peersB, startHeight := 86500, proposer := 2 }

/-- Proposal A's record while still in status Proposed. -/
def epA : EpochInfo :=
  { id := 1, peers := peersA, startHeight := 86500, proposer := 1,
    status := ProposalStatus.proposed }

/-- Proposal A's record after passing. -/
def epAPassed : EpochInfo :=
  { id := 1, peers := peersA, startHeight := 86500, proposer := 1,
    status := ProposalStatus.passed }

/-- State after validator 1 proposes A. -/
def sA : State := (Propose genesisState (ctxOf 1) peersA 0).1

/-- State after validator 1 proposes A and validator 2 proposes B. -/
def sAB : State := (Propose sA (ctxOf 2) peersB 0).1

/-- State after validator 3 additionally votes for A (tally 2 of 3). -/
def s3A : State := (Vote sAB (ctxOf 3) 1 hashA).1

/-- Validator 3 then switches its vote to B (the vote-switch scenario). -/
def r3B : State × CallResult × List Event := Vote s3A (ctxOf 3) 1 hashB

/-- State after validator 2 votes for A in the sibling-free scenario. -/
def v2A : State := (Vote sA (ctxOf 2) 1 hashA).1

/-- The quorum-crossing vote by validator 3 in the sibling-free scenario. -/
def rv3 : State × CallResult × List Event := Vote v2A (ctxOf 3) 1 hashA

/-- Post-transition state of the sibling-free scenario. -/
def sv3 : State := rv3.1

/-- A vote for the already-passed winner (C4's input). -/
def rc4 : State × CallResult × List Event := Vote sv3 (ctxOf 2) 1 hashA

/-- Post-transition state of the sibling scenario: A and B proposed,
validators 3 and 4 push A to quorum. -/
def w4 : State := (Vote s3A (ctxOf 4) 1 hashA).1

/-- A vote for the non-winning sibling B after A passed (C5's input). -/
def rc5 : State × CallResult × List Event := Vote w4 (ctxOf 1) 1 hashB

/-- The vote-switch filter of `Vote` (source lines 876-888) as a state
transformer, for use in specifications: on a switch it deletes the
pointer and then calls deleteVote with the new proposal's hash, exactly
as the source does. -/
def switchFilter (s : State) (e : Nat) (voter : Address) (p : EpochHash) : State :=
  match findVoteTo s e voter with
  | some lastVote2 =>
    if lastVote2 = p then s else deleteVote (delVoteTo s e voter) p voter
  | none => s

/-- A concrete consensus-sign record for the scenarios. -/
def sigM : ConsensusSign := { method := "m0", input := [7] }

/-- The candidate EpochInfo that Propose builds from its inputs (source
lines 762-771), for use in specifications. -/
def proposedEpoch (ctx : Ctx) (cur : EpochInfo) (peersIn : List Peer) (startHeightIn : Nat) :
    EpochInfo :=
  { id := cur.id + 1, peers := sortPeers peersIn,
    startHeight :=
      if 0 < startHeightIn then startHeightIn else ctx.blockHeight + DefaultEpochValidPeriod,
    proposer := ctx.txOrigin, status := ProposalStatus.proposed }

/-- C1: evaluation of the code at the failing input. Voter 3 holds a live
vote for proposal A (tally 2) and votes for proposal B of the same epoch
id (both Proposed, B below quorum). The call succeeds and the pointer
moves to B, but A's tally stays at 2 (voter 3 is still in A's vote set):
`deleteVote` is called with the new proposal's hash instead of the
last-voted one, so the old vote is never removed. The claim's expected
new tally for A would be 1. -/
theorem c1_vote_switch_keeps_old_tally :
    voteSize s3A hashA = 2 ∧ findVoteTo s3A 1 3 = some hashA ∧
    (∀ ep, s3A.epochs hashA = some ep → ep.status = ProposalStatus.proposed) ∧
    (∀ ep, s3A.epochs hashB = some ep → ep.status = ProposalStatus.proposed) ∧
    r3B.2.1 = CallResult.success ∧
    voteSize r3B.1 hashA = 2 ∧
    (r3B.1.votes hashA).contains 3 = true ∧
    voteSize r3B.1 hashB = 2 ∧
    findVoteTo r3B.1 1 3 = some hashB ∧
    ¬ voteSize r3B.1 hashA = 1 := by
  decide

/-- C2: evaluation of the code at the failing input. The quorum-crossing
vote for proposal A (winning epoch id 1, start height 86500) publishes an
epoch-change notification whose EpochID field is 86500 — the start
height — not the winning epoch's id 1: the source fills
`EpochID: epoch.StartHeight`. -/
theorem c2_notification_epoch_id_is_start_height :
    rv3.2.1 = CallResult.success ∧
    sv3.epochs hashA = some epAPassed ∧ epAPassed.id = 1 ∧
    rv3.2.2 = [Event.voted 1 hashA 3 4, Event.epochChanged ep0 epAPassed,
      Event.epochChangeFeedSent 86500 86500 [1, 2, 3, 4] hashA] ∧
    ¬ (86500 : Nat) = 1 := by
  decide

/-- C3 counterexample: a transition with zero sibling proposals. Proposal
A is the only proposal for epoch id 1 and passes quorum, yet outgoing
member 1's last-voted pointer for epoch id 1 survives the cleanup — the
pointer-deletion loop sits inside the per-sibling loop and never runs
when no sibling exists, refuting "this pointer deletion happens for all
outgoing members regardless of how many sibling proposals existed". -/
theorem c3_counterexample_no_sibling_keeps_pointer :
    rv3.2.1 = CallResult.success ∧
    sv3.epochs hashA = some epAPassed ∧
    sv3.currentHash = some hashA ∧
    getProposals sv3 1 = [hashA] ∧
    ep0.MemberList.contains 1 = true ∧
    findVoteTo sv3 1 1 = some hashA := by
  decide

/-- C4 counterexample: validator 2 (a member of the now-current winning
epoch) votes for the already-passed proposal A; the call does not return
success — it fails with the InvalidInput epoch-id mismatch (the passed
epoch became current, so id 1 no longer equals current.id + 1). -/
theorem c4_counterexample_vote_passed_fails :
    GetCurrentEpoch sv3 = some epAPassed ∧
    epAPassed.MemberList.contains 2 = true ∧
    sv3.epochs hashA = some epAPassed ∧
    epAPassed.status = ProposalStatus.passed ∧
    rc4.2.1 = CallResult.failure Err.invalidInput ∧
    ¬ rc4.2.1 = CallResult.success := by
  decide

/-- C5 counterexample: after proposal A passed with sibling B present,
validator 1 (member of the current epoch) votes for the non-winning
sibling B under the same epoch id 1; the call fails with InvalidInput
(epoch-id mismatch), not with ProposalAlreadyPassed. -/
theorem c5_counterexample_error_is_invalid_input :
    w4.epochs hashA = some epAPassed ∧
    w4.epochs hashB = none ∧
    GetCurrentEpoch w4 = some epAPassed ∧
    epAPassed.MemberList.contains 1 = true ∧
    rc5.2.1 = CallResult.failure Err.invalidInput ∧
    ¬ rc5.2.1 = CallResult.failure Err.proposalPassed := by
  decide

/-- Marking an epoch passed does not change its content hash. -/
@[simp] theorem hash_set_status (e : EpochInfo) (st : ProposalStatus) :
    ({ e with status := st } : EpochInfo).Hash = e.Hash := rfl

@[simp] theorem storeEpoch_currentHash (s e) : (storeEpoch s e).currentHash = s.currentHash := rfl

@[simp] theorem storeEpoch_proposals (s e) : (storeEpoch s e).proposals = s.proposals := rfl

@[simp] theorem storeEpoch_votes (s e) : (storeEpoch s e).votes = s.votes := rfl

@[simp] theorem storeEpoch_voteTo (s e) : (storeEpoch s e).voteTo = s.voteTo := rfl

@[simp] theorem storeEpoch_epochProof (s e) : (storeEpoch s e).epochProof = s.epochProof := rfl

@[simp] theorem storeEpoch_signs (s e) : (storeEpoch s e).signs = s.signs := rfl

@[simp] theorem storeEpoch_signers (s e) : (storeEpoch s e).signers = s.signers := rfl

theorem storeEpoch_epochs (s e h) :
    (storeEpoch s e).epochs h = if h = e.Hash then some e else s.epochs h := rfl

@[simp] theorem delEpoch_currentHash (s x) : (delEpoch s x).currentHash = s.currentHash := rfl

@[simp] theorem delEpoch_proposals (s x) : (delEpoch s x).proposals = s.proposals := rfl

@[simp] theorem delEpoch_votes (s x) : (delEpoch s x).votes = s.votes := rfl

@[simp] theorem delEpoch_voteTo (s x) : (delEpoch s x).voteTo = s.voteTo := rfl

@[simp] theorem delEpoch_epochProof (s x) : (delEpoch s x).epochProof = s.epochProof := rfl

@[simp] theorem delEpoch_signs (s x) : (delEpoch s x).signs = s.signs := rfl

@[simp] theorem delEpoch_signers (s x) : (delEpoch s x).signers = s.signers := rfl

theorem delEpoch_epochs (s x h) :
    (delEpoch s x).epochs h = if h = x then none else s.epochs h := rfl

@[simp] theorem storeProposal_currentHash (s i h) :
    (storeProposal s i h).currentHash = s.currentHash := rfl

@[simp] theorem storeProposal_epochs (s i h) : (storeProposal s i h).epochs = s.epochs := rfl

@[simp] theorem storeProposal_votes (s i h) : (storeProposal s i h).votes = s.votes := rfl

@[simp] theorem storeProposal_voteTo (s i h) : (storeProposal s i h).voteTo = s.voteTo := rfl

@[simp] theorem storeProposal_epochProof (s i h) :
    (storeProposal s i h).epochProof = s.epochProof := rfl

@[simp] theorem storeProposal_signs (s i h) : (storeProposal s i h).signs = s.signs := rfl

@[simp] theorem storeProposal_signers (s i h) : (storeProposal s i h).signers = s.signers := rfl

theorem storeProposal_proposals (s i h j) :
    (storeProposal s i h).proposals j =
      if j = i then (if (s.proposals i).contains h then s.proposals i else h :: s.proposals i)
      else s.proposals j := rfl

@[simp] theorem delProposal_currentHash (s i h) :
    (delProposal s i h).currentHash = s.currentHash := rfl

@[simp] theorem delProposal_epochs (s i h) : (delProposal s i h).epochs = s.epochs := rfl

@[simp] theorem delProposal_votes (s i h) : (delProposal s i h).votes = s.votes := rfl

@[simp] theorem delProposal_voteTo (s i h) : (delProposal s i h).voteTo = s.voteTo := rfl

@[simp] theorem delProposal_epochProof (s i h) :
    (delProposal s i h).epochProof = s.epochProof := rfl

@[simp] theorem delProposal_signs (s i h) : (delProposal s i h).signs = s.signs := rfl

@[simp] theorem delProposal_signers (s i h) : (delProposal s i h).signers = s.signers := rfl

theorem delProposal_proposals (s i h j) :
    (delProposal s i h).proposals j =
      if j = i then (s.proposals i).filter (fun h' => h' != h) else s.proposals j := rfl

@[simp] theorem storeVote_currentHash (s h v) : (storeVote s h v).currentHash = s.currentHash := rfl

@[simp] theorem storeVote_epochs (s h v) : (storeVote s h v).epochs = s.epochs := rfl

@[simp] theorem storeVote_proposals (s h v) : (storeVote s h v).proposals = s.proposals := rfl

@[simp] theorem storeVote_voteTo (s h v) : (storeVote s h v).voteTo = s.voteTo := rfl

@[simp] theorem storeVote_epochProof (s h v) : (storeVote s h v).epochProof = s.epochProof := rfl

@[simp] theorem storeVote_signs (s h v) : (storeVote s h v).signs = s.signs := rfl

@[simp] theorem storeVote_signers (s h v) : (storeVote s h v).signers = s.signers := rfl

theorem storeVote_votes (s h v h') :
    (storeVote s h v).votes h' =
      if h' = h then (if (s.votes h).contains v then s.votes h else v :: s.votes h)
      else s.votes h' := rfl

@[simp] theorem deleteVote_currentHash (s h v) :
    (deleteVote s h v).currentHash = s.currentHash := rfl

@[simp] theorem deleteVote_epochs (s h v) : (deleteVote s h v).epochs = s.epochs := rfl

@[simp] theorem deleteVote_proposals (s h v) : (deleteVote s h v).proposals = s.proposals := rfl

@[simp] theorem deleteVote_voteTo (s h v) : (deleteVote s h v).voteTo = s.voteTo := rfl

@[simp] theorem deleteVote_epochProof (s h v) :
    (deleteVote s h v).epochProof = s.epochProof := rfl

@[simp] theorem deleteVote_signs (s h v) : (deleteVote s h v).signs = s.signs := rfl

@[simp] theorem deleteVote_signers (s h v) : (deleteVote s h v).signers = s.signers := rfl

theorem deleteVote_votes (s h v h') :
    (deleteVote s h v).votes h' =
      if h' = h then (s.votes h).filter (fun a => a != v) else s.votes h' := rfl

@[simp] theorem clearVotes_currentHash (s h) : (clearVotes s h).currentHash = s.currentHash := rfl

@[simp] theorem clearVotes_epochs (s h) : (clearVotes s h).epochs = s.epochs := rfl

@[simp] theorem clearVotes_proposals (s h) : (clearVotes s h).proposals = s.proposals := rfl

@[simp] theorem clearVotes_voteTo (s h) : (clearVotes s h).voteTo = s.voteTo := rfl

@[simp] theorem clearVotes_epochProof (s h) : (clearVotes s h).epochProof = s.epochProof := rfl

@[simp] theorem clearVotes_signs (s h) : (clearVotes s h).signs = s.signs := rfl

@[simp] theorem clearVotes_signers (s h) : (clearVotes s h).signers = s.signers := rfl

theorem clearVotes_votes (s h h') :
    (clearVotes s h).votes h' = if h' = h then [] else s.votes h' := rfl

@[simp] theorem storeVoteTo_currentHash (s i v h) :
    (storeVoteTo s i v h).currentHash = s.currentHash := rfl

@[simp] theorem storeVoteTo_epochs (s i v h) : (storeVoteTo s i v h).epochs = s.epochs := rfl

@[simp] theorem storeVoteTo_proposals (s i v h) :
    (storeVoteTo s i v h).proposals = s.proposals := rfl

@[simp] theorem storeVoteTo_votes (s i v h) : (storeVoteTo s i v h).votes = s.votes := rfl

@[simp] theorem storeVoteTo_epochProof (s i v h) :
    (storeVoteTo s i v h).epochProof = s.epochProof := rfl

@[simp] theorem storeVoteTo_signs (s i v h) : (storeVoteTo s i v h).signs = s.signs := rfl

@[simp] theorem storeVoteTo_signers (s i v h) : (storeVoteTo s i v h).signers = s.signers := rfl

theorem storeVoteTo_voteTo (s i v h j x) :
    (storeVoteTo s i v h).voteTo j x =
      if j = i ∧ x = v then some h else s.voteTo j x := rfl

@[simp] theorem delVoteTo_currentHash (s i v) :
    (delVoteTo s i v).currentHash = s.currentHash := rfl

@[simp] theorem delVoteTo_epochs (s i v) : (delVoteTo s i v).epochs = s.epochs := rfl

@[simp] theorem delVoteTo_proposals (s i v) : (delVoteTo s i v).proposals = s.proposals := rfl

@[simp] theorem delVoteTo_votes (s i v) : (delVoteTo s i v).votes = s.votes := rfl

@[simp] theorem delVoteTo_epochProof (s i v) : (delVoteTo s i v).epochProof = s.epochProof := rfl

@[simp] theorem delVoteTo_signs (s i v) : (delVoteTo s i v).signs = s.signs := rfl

@[simp] theorem delVoteTo_signers (s i v) : (delVoteTo s i v).signers = s.signers := rfl

theorem delVoteTo_voteTo (s i v j x) :
    (delVoteTo s i v).voteTo j x = if j = i ∧ x = v then none else s.voteTo j x := rfl

@[simp] theorem storeCurrentEpochHash_epochs (s h) :
    (storeCurrentEpochHash s h).epochs = s.epochs := rfl

@[simp] theorem storeCurrentEpochHash_proposals (s h) :
    (storeCurrentEpochHash s h).proposals = s.proposals := rfl

@[simp] theorem storeCurrentEpochHash_votes (s h) :
    (storeCurrentEpochHash s h).votes = s.votes := rfl

@[simp] theorem storeCurrentEpochHash_voteTo (s h) :
    (storeCurrentEpochHash s h).voteTo = s.voteTo := rfl

@[simp] theorem storeCurrentEpochHash_epochProof (s h) :
    (storeCurrentEpochHash s h).epochProof = s.epochProof := rfl

@[simp] theorem storeCurrentEpochHash_signs (s h) :
    (storeCurrentEpochHash s h).signs = s.signs := rfl

@[simp] theorem storeCurrentEpochHash_signers (s h) :
    (storeCurrentEpochHash s h).signers = s.signers := rfl

@[simp] theorem storeCurrentEpochHash_currentHash (s h) :
    (storeCurrentEpochHash s h).currentHash = some h := rfl

@[simp] theorem storeEpochProof_currentHash (s i h) :
    (storeEpochProof s i h).currentHash = s.currentHash := rfl

@[simp] theorem storeEpochProof_epochs (s i h) : (storeEpochProof s i h).epochs = s.epochs := rfl

@[simp] theorem storeEpochProof_proposals (s i h) :
    (storeEpochProof s i h).proposals = s.proposals := rfl

@[simp] theorem storeEpochProof_votes (s i h) : (storeEpochProof s i h).votes = s.votes := rfl

@[simp] theorem storeEpochProof_voteTo (s i h) : (storeEpochProof s i h).voteTo = s.voteTo := rfl

@[simp] theorem storeEpochProof_signs (s i h) : (storeEpochProof s i h).signs = s.signs := rfl

@[simp] theorem storeEpochProof_signers (s i h) :
    (storeEpochProof s i h).signers = s.signers := rfl

theorem storeEpochProof_epochProof (s i h j) :
    (storeEpochProof s i h).epochProof j = if j = i then some h else s.epochProof j := rfl

@[simp] theorem storeSign_currentHash (s c) : (storeSign s c).currentHash = s.currentHash := rfl

@[simp] theorem storeSign_epochs (s c) : (storeSign s c).epochs = s.epochs := rfl

@[simp] theorem storeSign_proposals (s c) : (storeSign s c).proposals = s.proposals := rfl

@[simp] theorem storeSign_votes (s c) : (storeSign s c).votes = s.votes := rfl

@[simp] theorem storeSign_voteTo (s c) : (storeSign s c).voteTo = s.voteTo := rfl

@[simp] theorem storeSign_epochProof (s c) : (storeSign s c).epochProof = s.epochProof := rfl

@[simp] theorem storeSign_signers (s c) : (storeSign s c).signers = s.signers := rfl

@[simp] theorem storeSigner_currentHash (s h v) :
    (storeSigner s h v).currentHash = s.currentHash := rfl

@[simp] theorem storeSigner_epochs (s h v) : (storeSigner s h v).epochs = s.epochs := rfl

@[simp] theorem storeSigner_proposals (s h v) : (storeSigner s h v).proposals = s.proposals := rfl

@[simp] theorem storeSigner_votes (s h v) : (storeSigner s h v).votes = s.votes := rfl

@[simp] theorem storeSigner_voteTo (s h v) : (storeSigner s h v).voteTo = s.voteTo := rfl

@[simp] theorem storeSigner_epochProof (s h v) :
    (storeSigner s h v).epochProof = s.epochProof := rfl

@[simp] theorem storeSigner_signs (s h v) : (storeSigner s h v).signs = s.signs := rfl

/-- Inserting into the canonical order adds exactly one element. -/
theorem insertPeer_length (p : Peer) (l : List Peer) :
    (insertPeer p l).length = l.length + 1 := by
  induction l with
  | nil => rfl
  | cons q qs ih =>
    unfold insertPeer
    split
    · rfl
    · simp [ih]

/-- The canonical sort preserves the number of peers. -/
theorem sortPeers_length (l : List Peer) : (sortPeers l).length = l.length := by
  induction l with
  | nil => rfl
  | cons p ps ih => simp [sortPeers, insertPeer_length, ih]

/-- A valid group (at least 4 members) has quorum at least 3. -/
theorem quorumSize_ge_three (e : EpochInfo) (h4 : 4 ≤ e.peers.length) :
    3 ≤ e.QuorumSize := by
  unfold EpochInfo.QuorumSize EpochInfo.Members
  have hd := Nat.div_mul_le_self (e.peers.length - 1) 3
  omega

/-- voteCore always reports success. -/
theorem voteCore_result (s ctx curEpoch epoch epochID proposal) :
    (voteCore s ctx curEpoch epoch epochID proposal).2.1 = CallResult.success := by
  unfold voteCore
  dsimp only
  split <;> rfl

/-- Propose either succeeds or leaves the state untouched. -/
theorem propose_success_or_unchanged (s ctx peersIn sh) :
    (Propose s ctx peersIn sh).2.1 = CallResult.success ∨ (Propose s ctx peersIn sh).1 = s := by
  unfold Propose
  cases hc : GetCurrentEpoch s with
  | none => exact Or.inr rfl
  | some cur =>
    dsimp only
    repeat' split
    all_goals first
      | exact Or.inr rfl
      | exact Or.inl rfl

/-- Vote either succeeds or leaves the state untouched. -/
theorem vote_success_or_unchanged (s ctx e p) :
    (Vote s ctx e p).2.1 = CallResult.success ∨ (Vote s ctx e p).1 = s := by
  unfold Vote
  cases hc : GetCurrentEpoch s with
  | none => exact Or.inr rfl
  | some cur =>
    dsimp only
    repeat' split
    all_goals first
      | exact Or.inr rfl
      | exact Or.inl rfl
      | exact Or.inl (voteCore_result _ _ _ _ _ _)

/-- C8: Propose and Vote are atomic with respect to their own writes:
whenever a call returns an error, the storage state it returns is exactly
the input state, so no write is visible. (In this embedding the
key-value store and event emission are infallible, matching the host
model in which storage writes within a transaction cannot partially
fail; every error return therefore happens before the first write.) -/
theorem c8_no_partial_writes_on_error :
    (∀ s ctx peersIn sh er, (Propose s ctx peersIn sh).2.1 = CallResult.failure er →
      (Propose s ctx peersIn sh).1 = s) ∧
    (∀ s ctx e p er, (Vote s ctx e p).2.1 = CallResult.failure er →
      (Vote s ctx e p).1 = s) := by
  constructor
  · intro s ctx peersIn sh er h
    rcases propose_success_or_unchanged s ctx peersIn sh with hs | hu
    · rw [h] at hs; cases hs
    · exact hu
  · intro s ctx e p er h
    rcases vote_success_or_unchanged s ctx e p with hs | hu
    · rw [h] at hs; cases hs
    · exact hu

/-- C8 witness: a failing Vote (non-member origin 5) leaves the genesis
state untouched. -/
theorem c8_witness : (Vote genesisState (ctxOf 5) 1 hashA).1 = genesisState :=
  c8_no_partial_writes_on_error.2 genesisState (ctxOf 5) 1 hashA Err.invalidAuthority (by decide)

/-- C4 (amended): a Vote naming a proposal whose stored record is already
Passed always fails — with some error, not success — and leaves all
storage unchanged. -/
theorem c4_amended_vote_on_passed_fails (s : State) (ctx : Ctx) (e : Nat) (p : EpochHash)
    (ep : EpochInfo) (hp : s.epochs p = some ep)
    (hst : ep.status = ProposalStatus.passed) :
    ∃ er, Vote s ctx e p = (s, CallResult.failure er, []) := by
  unfold Vote
  cases hc : GetCurrentEpoch s with
  | none => exact ⟨Err.epochNotExist, rfl⟩
  | some cur =>
    dsimp only
    split
    · exact ⟨Err.invalidAuthority, rfl⟩
    split
    · exact ⟨Err.invalidInput, rfl⟩
    split
    · exact ⟨Err.proposalNotExist, rfl⟩
    split
    · exact ⟨Err.epochNotExist, rfl⟩
    next epoch heq =>
      rw [hp] at heq
      cases heq
      rw [if_pos hst]
      exact ⟨Err.proposalPassed, rfl⟩

/-- C4 witness: at the concrete post-transition state, the vote for the
passed winner fails with untouched storage. -/
theorem c4_witness :
    ∃ er, Vote sv3 (ctxOf 2) 1 hashA = (sv3, CallResult.failure er, []) :=
  c4_amended_vote_on_passed_fails sv3 (ctxOf 2) 1 hashA epAPassed (by decide) (by decide)

/-- C5 (amended): once a proposal for epoch id e passes, the passed epoch
becomes current (id e), so every subsequent authorized Vote under epoch
id e fails with the InvalidInput epoch-id mismatch — not with
ProposalAlreadyPassed. Stated for any authorized vote whose epoch id is
not current.id + 1 (after a pass, e = current.id). -/
theorem c5_amended_stale_epoch_vote_fails (s : State) (ctx : Ctx) (e : Nat) (p : EpochHash)
    (cur : EpochInfo) (hc : GetCurrentEpoch s = some cur)
    (ha : checkAuthority ctx.txOrigin ctx.caller cur = true)
    (he : e ≠ cur.id + 1) :
    Vote s ctx e p = (s, CallResult.failure Err.invalidInput, []) := by
  unfold Vote
  rw [hc]
  dsimp only
  rw [if_neg (by simp [ha]), if_pos he]

/-- C5 witness: in the sibling scenario after A passed, validator 1's
vote for sibling B under epoch id 1 fails with InvalidInput. -/
theorem c5_witness :
    Vote w4 (ctxOf 1) 1 hashB = (w4, CallResult.failure Err.invalidInput, []) :=
  c5_amended_stale_epoch_vote_fails w4 (ctxOf 1) 1 hashB epAPassed (by decide) (by decide)
    (by decide)

/-- C9: with an authorized proposer, a candidate list with fewer than 4
or more than 100 entries always fails with an InvalidPeerSet-kind error
(empty list or wrong size), leaving the state unchanged; lists of exactly
4 or exactly 100 peers pass the size check (the call never returns the
empty-list or wrong-size errors). -/
theorem c9_peer_count_bounds (s : State) (ctx : Ctx) (peersIn : List Peer) (sh : Nat)
    (cur : EpochInfo) (hc : GetCurrentEpoch s = some cur)
    (ha : checkAuthority ctx.txOrigin ctx.caller cur = true) :
    ((peersIn.length < 4 ∨ 100 < peersIn.length) →
      ∃ er, Propose s ctx peersIn sh = (s, CallResult.failure er, []) ∧
        (er = Err.invalidPeers ∨ er = Err.peersNum)) ∧
    ((peersIn.length = 4 ∨ peersIn.length = 100) →
      (Propose s ctx peersIn sh).2.1 ≠ CallResult.failure Err.invalidPeers ∧
      (Propose s ctx peersIn sh).2.1 ≠ CallResult.failure Err.peersNum) := by
  constructor
  · intro hlen
    unfold Propose
    rw [hc]
    dsimp only
    rw [if_neg (by simp [ha])]
    by_cases h0 : peersIn.isEmpty
    · rw [if_pos h0]
      exact ⟨Err.invalidPeers, rfl, Or.inl rfl⟩
    · rw [if_neg h0, if_pos ?_]
      · exact ⟨Err.peersNum, rfl, Or.inr rfl⟩
      · unfold MinProposalPeersLen MaxProposalPeersLen
        omega
  · intro hlen
    have h0 : peersIn.isEmpty = false := by
      cases peersIn with
      | nil => simp at hlen
      | cons a l => rfl
    have hsz : ¬ (peersIn.length < MinProposalPeersLen ∨
        MaxProposalPeersLen < peersIn.length) := by
      unfold MinProposalPeersLen MaxProposalPeersLen
      omega
    unfold Propose
    rw [hc]
    dsimp only
    rw [if_neg (by simp [ha]), if_neg (by simp [h0]), if_neg hsz]
    repeat' split
    all_goals simp

/-- C9 witness: with 3 peers the proposal fails with the wrong-size
error, and with the 4-peer list it does not return a peer-set-size
error. -/
theorem c9_witness :
    (∃ er, Propose genesisState (ctxOf 1) [p1, p2, p3] 0 =
      (genesisState, CallResult.failure er, []) ∧
      (er = Err.invalidPeers ∨ er = Err.peersNum)) ∧
    (Propose genesisState (ctxOf 1) peersA 0).2.1 ≠ CallResult.failure Err.peersNum :=
  ⟨(c9_peer_count_bounds genesisState (ctxOf 1) [p1, p2, p3] 0 ep0 (by decide) (by decide)).1
    (by decide),
   ((c9_peer_count_bounds genesisState (ctxOf 1) peersA 0 ep0 (by decide) (by decide)).2
    (by decide)).2⟩

/-- The pointer-deletion inner loop leaves the epoch records unchanged. -/
theorem foldlDel_epochs (l : List Peer) (i : Nat) :
    ∀ a : State, (l.foldl (fun b pr => delVoteTo b i pr.address) a).epochs = a.epochs := by
  induction l with
  | nil => intro a; rfl
  | cons q qs ih =>
    intro a
    rw [List.foldl_cons]
    exact ih (delVoteTo a i q.address)

/-- The pointer-deletion inner loop leaves the vote sets unchanged. -/
theorem foldlDel_votes (l : List Peer) (i : Nat) :
    ∀ a : State, (l.foldl (fun b pr => delVoteTo b i pr.address) a).votes = a.votes := by
  induction l with
  | nil => intro a; rfl
  | cons q qs ih =>
    intro a
    rw [List.foldl_cons]
    exact ih (delVoteTo a i q.address)

/-- The pointer-deletion inner loop leaves the proposal index unchanged. -/
theorem foldlDel_proposals (l : List Peer) (i : Nat) :
    ∀ a : State, (l.foldl (fun b pr => delVoteTo b i pr.address) a).proposals = a.proposals := by
  induction l with
  | nil => intro a; rfl
  | cons q qs ih =>
    intro a
    rw [List.foldl_cons]
    exact ih (delVoteTo a i q.address)

/-- The pointer-deletion inner loop leaves the current hash unchanged. -/
theorem foldlDel_currentHash (l : List Peer) (i : Nat) :
    ∀ a : State, (l.foldl (fun b pr => delVoteTo b i pr.address) a).currentHash =
      a.currentHash := by
  induction l with
  | nil => intro a; rfl
  | cons q qs ih =>
    intro a
    rw [List.foldl_cons]
    exact ih (delVoteTo a i q.address)

/-- The pointer-deletion inner loop leaves the epoch proofs unchanged. -/
theorem foldlDel_epochProof (l : List Peer) (i : Nat) :
    ∀ a : State, (l.foldl (fun b pr => delVoteTo b i pr.address) a).epochProof =
      a.epochProof := by
  induction l with
  | nil => intro a; rfl
  | cons q qs ih =>
    intro a
    rw [List.foldl_cons]
    exact ih (delVoteTo a i q.address)

/-- The pointer-deletion inner loop only ever deletes pointers. -/
theorem foldlDel_voteTo_cases (i : Nat) (j : Nat) (x : Address) :
    ∀ (l : List Peer) (a : State),
      (l.foldl (fun b pr => delVoteTo b i pr.address) a).voteTo j x = a.voteTo j x ∨
      (l.foldl (fun b pr => delVoteTo b i pr.address) a).voteTo j x = none := by
  intro l
  induction l with
  | nil => intro a; exact Or.inl rfl
  | cons q qs ih =>
    intro a
    rw [List.foldl_cons]
    rcases ih (delVoteTo a i q.address) with h | h
    · rw [h, delVoteTo_voteTo]
      by_cases hij : j = i ∧ x = q.address
      · rw [if_pos hij]; exact Or.inr rfl
      · rw [if_neg hij]; exact Or.inl rfl
    · exact Or.inr h

/-- An absent pointer stays absent through the inner loop. -/
theorem foldlDel_voteTo_none (i : Nat) (j : Nat) (x : Address) (l : List Peer) (a : State)
    (h : a.voteTo j x = none) :
    (l.foldl (fun b pr => delVoteTo b i pr.address) a).voteTo j x = none := by
  rcases foldlDel_voteTo_cases i j x l a with h' | h'
  · rw [h', h]
  · exact h'

/-- The inner loop deletes the pointer of every listed peer. -/
theorem foldlDel_voteTo_mem (i : Nat) (pr : Peer) :
    ∀ (l : List Peer) (a : State), pr ∈ l →
      (l.foldl (fun b pr => delVoteTo b i pr.address) a).voteTo i pr.address = none := by
  intro l
  induction l with
  | nil => intro a h; cases h
  | cons q qs ih =>
    intro a h
    rw [List.foldl_cons]
    rcases List.mem_cons.mp h with h1 | h1
    · refine foldlDel_voteTo_none i i pr.address qs _ ?_
      rw [delVoteTo_voteTo, if_pos ⟨rfl, by rw [h1]⟩]
    · exact ih (delVoteTo a i q.address) h1

/-- Characterization of one cleanup iteration on the epoch records. -/
theorem dirtyStep_epochs (c : Nat) (ch : EpochHash) (last : Option EpochInfo) (acc : State)
    (v h : EpochHash) :
    (dirtyStep c ch last acc v).epochs h =
      if h = v ∧ v ≠ ch then none else acc.epochs h := by
  unfold dirtyStep
  by_cases hv : v = ch
  · rw [if_pos hv]
    have : ¬ (h = v ∧ v ≠ ch) := fun hx => hx.2 hv
    rw [if_neg this]
  · rw [if_neg hv]
    dsimp only
    have hbase : ∀ h', (clearVotes (delProposal (delEpoch acc v) c v) v).epochs h' =
        if h' = v then none else acc.epochs h' := by
      intro h'
      rw [clearVotes_epochs, delProposal_epochs, delEpoch_epochs]
    have hgoal : (if h = v then none else acc.epochs h) =
        if h = v ∧ v ≠ ch then none else acc.epochs h := by
      by_cases hh : h = v
      · rw [if_pos hh, if_pos ⟨hh, hv⟩]
      · rw [if_neg hh, if_neg (fun hx => hh hx.1)]
    cases last with
    | none => rw [hbase, hgoal]
    | some l => rw [foldlDel_epochs, hbase, hgoal]

/-- Characterization of one cleanup iteration on the vote sets. -/
theorem dirtyStep_votes (c : Nat) (ch : EpochHash) (last : Option EpochInfo) (acc : State)
    (v h : EpochHash) :
    (dirtyStep c ch last acc v).votes h =
      if h = v ∧ v ≠ ch then [] else acc.votes h := by
  unfold dirtyStep
  by_cases hv : v = ch
  · rw [if_pos hv]
    have : ¬ (h = v ∧ v ≠ ch) := fun hx => hx.2 hv
    rw [if_neg this]
  · rw [if_neg hv]
    dsimp only
    have hbase : ∀ h', (clearVotes (delProposal (delEpoch acc v) c v) v).votes h' =
        if h' = v then [] else acc.votes h' := by
      intro h'
      rw [clearVotes_votes, delProposal_votes, delEpoch_votes]
    have hgoal : (if h = v then ([] : List Address) else acc.votes h) =
        if h = v ∧ v ≠ ch then [] else acc.votes h := by
      by_cases hh : h = v
      · rw [if_pos hh, if_pos ⟨hh, hv⟩]
      · rw [if_neg hh, if_neg (fun hx => hh hx.1)]
    cases last with
    | none => rw [hbase, hgoal]
    | some l => rw [foldlDel_votes, hbase, hgoal]

/-- Characterization of one cleanup iteration on the proposal index. -/
theorem dirtyStep_proposals (c : Nat) (ch : EpochHash) (last : Option EpochInfo) (acc : State)
    (v : EpochHash) (j : Nat) :
    (dirtyStep c ch last acc v).proposals j =
      if j = c ∧ v ≠ ch then (acc.proposals c).filter (fun h' => h' != v)
      else acc.proposals j := by
  unfold dirtyStep
  by_cases hv : v = ch
  · rw [if_pos hv]
    have : ¬ (j = c ∧ v ≠ ch) := fun hx => hx.2 hv
    rw [if_neg this]
  · rw [if_neg hv]
    dsimp only
    have hbase : (clearVotes (delProposal (delEpoch acc v) c v) v).proposals j =
        if j = c then (acc.proposals c).filter (fun h' => h' != v) else acc.proposals j := by
      rw [clearVotes_proposals, delProposal_proposals, delEpoch_proposals]
    have hgoal : (if j = c then (acc.proposals c).filter (fun h' => h' != v)
          else acc.proposals j) =
        if j = c ∧ v ≠ ch then (acc.proposals c).filter (fun h' => h' != v)
        else acc.proposals j := by
      by_cases hh : j = c
      · rw [if_pos hh, if_pos ⟨hh, hv⟩]
      · rw [if_neg hh, if_neg (fun hx => hh hx.1)]
    cases last with
    | none => rw [hbase, hgoal]
    | some l => rw [foldlDel_proposals, hbase, hgoal]

/-- One cleanup iteration leaves the current hash unchanged. -/
theorem dirtyStep_currentHash (c : Nat) (ch : EpochHash) (last : Option EpochInfo)
    (acc : State) (v : EpochHash) :
    (dirtyStep c ch last acc v).currentHash = acc.currentHash := by
  unfold dirtyStep
  by_cases hv : v = ch
  · rw [if_pos hv]
  · rw [if_neg hv]
    dsimp only
    cases last with
    | none => rfl
    | some l => rw [foldlDel_currentHash]; rfl

/-- One cleanup iteration leaves the epoch proofs unchanged. -/
theorem dirtyStep_epochProof (c : Nat) (ch : EpochHash) (last : Option EpochInfo)
    (acc : State) (v : EpochHash) :
    (dirtyStep c ch last acc v).epochProof = acc.epochProof := by
  unfold dirtyStep
  by_cases hv : v = ch
  · rw [if_pos hv]
  · rw [if_neg hv]
    dsimp only
    cases last with
    | none => rfl
    | some l => rw [foldlDel_epochProof]; rfl

/-- One cleanup iteration only ever deletes pointers. -/
theorem dirtyStep_voteTo_cases (c : Nat) (ch : EpochHash) (last : Option EpochInfo)
    (acc : State) (v : EpochHash) (j : Nat) (x : Address) :
    (dirtyStep c ch last acc v).voteTo j x = acc.voteTo j x ∨
    (dirtyStep c ch last acc v).voteTo j x = none := by
  unfold dirtyStep
  by_cases hv : v = ch
  · rw [if_pos hv]; exact Or.inl rfl
  · rw [if_neg hv]
    dsimp only
    cases last with
    | none => exact Or.inl rfl
    | some l => exact foldlDel_voteTo_cases c j x l.peers _

/-- A non-winner iteration deletes the pointer of every outgoing member. -/
theorem dirtyStep_voteTo_est (c : Nat) (ch : EpochHash) (l : EpochInfo) (acc : State)
    (v : EpochHash) (pr : Peer) (hv : v ≠ ch) (hpr : pr ∈ l.peers) :
    (dirtyStep c ch (some l) acc v).voteTo c pr.address = none := by
  unfold dirtyStep
  rw [if_neg hv]
  dsimp only
  exact foldlDel_voteTo_mem c pr l.peers _ hpr

/-- The cleanup loop deletes the epoch record of every listed non-winner
and keeps all other records. -/
theorem dirtyFold_epochs (c : Nat) (ch : EpochHash) (last : Option EpochInfo)
    (h : EpochHash) :
    ∀ (L : List EpochHash) (t : State),
      (L.foldl (dirtyStep c ch last) t).epochs h =
        if h ∈ L ∧ h ≠ ch then none else t.epochs h := by
  intro L
  induction L with
  | nil =>
    intro t
    rw [if_neg (fun hx => (List.not_mem_nil h) hx.1)]
    rfl
  | cons v rest ih =>
    intro t
    rw [List.foldl_cons, ih]
    by_cases hm : h ∈ rest ∧ h ≠ ch
    · rw [if_pos hm, if_pos ⟨List.mem_cons_of_mem v hm.1, hm.2⟩]
    · rw [if_neg hm, dirtyStep_epochs]
      by_cases h2 : h = v ∧ v ≠ ch
      · rw [if_pos h2, if_pos ⟨by rw [h2.1]; exact List.mem_cons_self v rest,
          by rw [h2.1]; exact h2.2⟩]
      · rw [if_neg h2, if_neg ?_]
        rintro ⟨hmem, hne⟩
        rcases List.mem_cons.mp hmem with h3 | h3
        · exact h2 ⟨h3, by rw [← h3]; exact hne⟩
        · exact hm ⟨h3, hne⟩

/-- The cleanup loop clears the vote set of every listed non-winner and
keeps all other vote sets. -/
theorem dirtyFold_votes (c : Nat) (ch : EpochHash) (last : Option EpochInfo)
    (h : EpochHash) :
    ∀ (L : List EpochHash) (t : State),
      (L.foldl (dirtyStep c ch last) t).votes h =
        if h ∈ L ∧ h ≠ ch then [] else t.votes h := by
  intro L
  induction L with
  | nil =>
    intro t
    rw [if_neg (fun hx => (List.not_mem_nil h) hx.1)]
    rfl
  | cons v rest ih =>
    intro t
    rw [List.foldl_cons, ih]
    by_cases hm : h ∈ rest ∧ h ≠ ch
    · rw [if_pos hm, if_pos ⟨List.mem_cons_of_mem v hm.1, hm.2⟩]
    · rw [if_neg hm, dirtyStep_votes]
      by_cases h2 : h = v ∧ v ≠ ch
      · rw [if_pos h2, if_pos ⟨by rw [h2.1]; exact List.mem_cons_self v rest,
          by rw [h2.1]; exact h2.2⟩]
      · rw [if_neg h2, if_neg ?_]
        rintro ⟨hmem, hne⟩
        rcases List.mem_cons.mp hmem with h3 | h3
        · exact h2 ⟨h3, by rw [← h3]; exact hne⟩
        · exact hm ⟨h3, hne⟩

/-- The cleanup loop never adds index entries. -/
theorem dirtyFold_proposals_mono (c : Nat) (ch : EpochHash) (last : Option EpochInfo)
    (j : Nat) (x : EpochHash) :
    ∀ (L : List EpochHash) (t : State),
      x ∈ (L.foldl (dirtyStep c ch last) t).proposals j → x ∈ t.proposals j := by
  intro L
  induction L with
  | nil => intro t hx; exact hx
  | cons v rest ih =>
    intro t hx
    rw [List.foldl_cons] at hx
    have hx' := ih (dirtyStep c ch last t v) hx
    rw [dirtyStep_proposals] at hx'
    by_cases hcnd : j = c ∧ v ≠ ch
    · rw [if_pos hcnd] at hx'
      have h4 := List.mem_filter.mp hx'
      rw [hcnd.1]
      exact h4.1
    · rw [if_neg hcnd] at hx'
      exact hx'

/-- The cleanup loop removes every listed non-winner from the index. -/
theorem dirtyFold_proposals_est (c : Nat) (ch : EpochHash) (last : Option EpochInfo)
    (x : EpochHash) (hne : x ≠ ch) :
    ∀ (L : List EpochHash) (t : State),
      x ∈ L → x ∉ (L.foldl (dirtyStep c ch last) t).proposals c := by
  intro L
  induction L with
  | nil => intro t hx; cases hx
  | cons v rest ih =>
    intro t hx
    rw [List.foldl_cons]
    rcases List.mem_cons.mp hx with h1 | h1
    · intro hmem
      have hx' := dirtyFold_proposals_mono c ch last c x rest _ hmem
      rw [dirtyStep_proposals, if_pos ⟨rfl, by rw [← h1]; exact hne⟩] at hx'
      have h4 := List.mem_filter.mp hx'
      rw [h1] at h4
      simp at h4
    · exact ih _ h1

/-- The cleanup loop only ever deletes pointers. -/
theorem dirtyFold_voteTo_cases (c : Nat) (ch : EpochHash) (last : Option EpochInfo)
    (j : Nat) (x : Address) :
    ∀ (L : List EpochHash) (t : State),
      (L.foldl (dirtyStep c ch last) t).voteTo j x = t.voteTo j x ∨
      (L.foldl (dirtyStep c ch last) t).voteTo j x = none := by
  intro L
  induction L with
  | nil => intro t; exact Or.inl rfl
  | cons v rest ih =>
    intro t
    rw [List.foldl_cons]
    rcases ih (dirtyStep c ch last t v) with h | h
    · rw [h]
      exact dirtyStep_voteTo_cases c ch last t v j x
    · exact Or.inr h

/-- An absent pointer stays absent through the cleanup loop. -/
theorem dirtyFold_voteTo_none (c : Nat) (ch : EpochHash) (last : Option EpochInfo)
    (j : Nat) (x : Address) (L : List EpochHash) (t : State)
    (h : t.voteTo j x = none) :
    (L.foldl (dirtyStep c ch last) t).voteTo j x = none := by
  rcases dirtyFold_voteTo_cases c ch last j x L t with h' | h'
  · rw [h', h]
  · exact h'

/-- If at least one listed non-winner exists, the cleanup loop deletes
the pointer of every outgoing member. -/
theorem dirtyFold_voteTo_est (c : Nat) (ch : EpochHash) (l : EpochInfo) (pr : Peer)
    (hpr : pr ∈ l.peers) :
    ∀ (L : List EpochHash) (t : State), (∃ v, v ∈ L ∧ v ≠ ch) →
      (L.foldl (dirtyStep c ch (some l)) t).voteTo c pr.address = none := by
  intro L
  induction L with
  | nil =>
    rintro t ⟨v, hv, _⟩
    cases hv
  | cons w rest ih =>
    rintro t ⟨v, hv, hvne⟩
    rw [List.foldl_cons]
    rcases List.mem_cons.mp hv with h1 | h1
    · refine dirtyFold_voteTo_none c ch (some l) c pr.address rest _ ?_
      exact dirtyStep_voteTo_est c ch l t w pr (by rw [← h1]; exact hvne) hpr
    · exact ih _ ⟨v, h1, hvne⟩

/-- The cleanup loop leaves the current hash unchanged. -/
theorem dirtyFold_currentHash (c : Nat) (ch : EpochHash) (last : Option EpochInfo) :
    ∀ (L : List EpochHash) (t : State),
      (L.foldl (dirtyStep c ch last) t).currentHash = t.currentHash := by
  intro L
  induction L with
  | nil => intro t; rfl
  | cons v rest ih =>
    intro t
    rw [List.foldl_cons, ih, dirtyStep_currentHash]

/-- The cleanup loop leaves the epoch proofs unchanged. -/
theorem dirtyFold_epochProof (c : Nat) (ch : EpochHash) (last : Option EpochInfo) :
    ∀ (L : List EpochHash) (t : State),
      (L.foldl (dirtyStep c ch last) t).epochProof = t.epochProof := by
  intro L
  induction L with
  | nil => intro t; rfl
  | cons v rest ih =>
    intro t
    rw [List.foldl_cons, ih, dirtyStep_epochProof]

/-- C3 (amended): for every non-winning proposal hash indexed under the
new epoch's id, the cleanup deletes its EpochInfo, removes its index
entry and clears its entire vote set; and the outgoing members'
last-voted pointers for that epoch id are deleted provided at least one
non-winning sibling proposal was indexed (with zero siblings, the
pointer-deletion loop never runs). -/
theorem c3_amended_cleanup (s : State) (last cur : EpochInfo) :
    (∀ h, h ∈ getProposals s cur.id → h ≠ cur.Hash →
      (dirtyJob s (some last) cur).epochs h = none ∧
      h ∉ (dirtyJob s (some last) cur).proposals cur.id ∧
      (dirtyJob s (some last) cur).votes h = []) ∧
    ((∃ h, h ∈ getProposals s cur.id ∧ h ≠ cur.Hash) →
      ∀ pr, pr ∈ last.peers →
        (dirtyJob s (some last) cur).voteTo cur.id pr.address = none) := by
  constructor
  · intro h hmem hne
    unfold dirtyJob
    refine ⟨?_, ?_, ?_⟩
    · rw [dirtyFold_epochs, if_pos ⟨hmem, hne⟩]
    · exact dirtyFold_proposals_est cur.id cur.Hash (some last) h hne _ s hmem
    · rw [dirtyFold_votes, if_pos ⟨hmem, hne⟩]
  · intro hex pr hpr
    unfold dirtyJob
    exact dirtyFold_voteTo_est cur.id cur.Hash last pr hpr _ s hex

/-- C3 witness: in the concrete two-proposal state (winner A, sibling B),
the cleanup deletes B's record, index entry and votes, and deletes
outgoing member 1's pointer. -/
theorem c3_witness :
    ((dirtyJob s3A (some ep0) epAPassed).epochs hashB = none ∧
      hashB ∉ (dirtyJob s3A (some ep0) epAPassed).proposals 1 ∧
      (dirtyJob s3A (some ep0) epAPassed).votes hashB = []) ∧
    (dirtyJob s3A (some ep0) epAPassed).voteTo 1 1 = none := by
  have hmain := c3_amended_cleanup s3A ep0 epAPassed
  refine ⟨hmain.1 hashB (by decide) (by decide), ?_⟩
  exact hmain.2 ⟨hashB, by decide, by decide⟩ p1 (by decide)

/-- The vote-switch filter leaves the epoch records unchanged. -/
theorem switchFilter_epochs (s e v p) : (switchFilter s e v p).epochs = s.epochs := by
  unfold switchFilter
  cases h : findVoteTo s e v with
  | none => rfl
  | some q =>
    dsimp only
    split <;> rfl

/-- The vote-switch filter leaves the current hash unchanged. -/
theorem switchFilter_currentHash (s e v p) :
    (switchFilter s e v p).currentHash = s.currentHash := by
  unfold switchFilter
  cases h : findVoteTo s e v with
  | none => rfl
  | some q =>
    dsimp only
    split <;> rfl

/-- The vote-switch filter leaves the epoch proofs unchanged. -/
theorem switchFilter_epochProof (s e v p) :
    (switchFilter s e v p).epochProof = s.epochProof := by
  unfold switchFilter
  cases h : findVoteTo s e v with
  | none => rfl
  | some q =>
    dsimp only
    split <;> rfl

/-- The vote-switch filter leaves the proposal index unchanged. -/
theorem switchFilter_proposals (s e v p) :
    (switchFilter s e v p).proposals = s.proposals := by
  unfold switchFilter
  cases h : findVoteTo s e v with
  | none => rfl
  | some q =>
    dsimp only
    split <;> rfl

/-- The vote-switch filter never enlarges the voted-for proposal's tally. -/
theorem switchFilter_voteSize_le (s e v p) :
    voteSize (switchFilter s e v p) p ≤ voteSize s p := by
  unfold switchFilter voteSize
  cases h : findVoteTo s e v with
  | none => exact le_refl _
  | some q =>
    dsimp only
    split
    · exact le_refl _
    · rw [deleteVote_votes, if_pos rfl, delVoteTo_votes]
      exact List.length_filter_le _ _

/-- Recording a vote grows the tally by at most one. -/
theorem storeVote_voteSize_le (s h v) : voteSize (storeVote s h v) h ≤ voteSize s h + 1 := by
  unfold voteSize
  rw [storeVote_votes, if_pos rfl]
  split
  · omega
  · simp

/-- Vote, under all of its guards and with a non-duplicate pointer,
reduces to voteCore applied to the switch-filtered state. -/
theorem vote_main (s : State) (ctx : Ctx) (e : Nat) (p : EpochHash) (cur ep : EpochInfo)
    (hc : GetCurrentEpoch s = some cur)
    (ha : checkAuthority ctx.txOrigin ctx.caller cur = true)
    (he : e = cur.id + 1)
    (hf : findProposal s e p = true)
    (hp : s.epochs p = some ep)
    (hst : ep.status = ProposalStatus.proposed)
    (hid : e = ep.id)
    (hh : p = ep.Hash)
    (hht : ctx.blockHeight + MinVoteEffectivePeriod < ep.startHeight)
    (hq : voteSize s p < cur.QuorumSize)
    (hnd : findVoteTo s e ctx.txOrigin ≠ some p) :
    Vote s ctx e p = voteCore (switchFilter s e ctx.txOrigin p) ctx cur ep e p := by
  unfold Vote switchFilter
  rw [hc]
  dsimp only
  rw [if_neg (by simp [ha]), if_neg (fun hx => hx he), if_neg (by simp [hf]), hp]
  dsimp only
  rw [if_neg (by simp [hst]), if_neg (fun hx => hx hid), if_neg (fun hx => hx hh),
    if_neg (by omega), if_neg (by omega)]
  cases hv : findVoteTo s e ctx.txOrigin with
  | none => rfl
  | some q =>
    dsimp only
    have hqp : ¬ q = p := fun hqp => hnd (by rw [hv, hqp])
    rw [if_neg hqp, if_neg hqp]

/-- voteCore in the below-quorum case: records the vote, emits the voted
event, and performs none of the transition effects. -/
theorem voteCore_below (s : State) (ctx : Ctx) (cur ep : EpochInfo) (e : Nat) (p : EpochHash)
    (hne : voteSize (storeVote (storeVoteTo s e ctx.txOrigin p) p ctx.txOrigin) p ≠
      cur.QuorumSize) :
    voteCore s ctx cur ep e p =
      (storeVote (storeVoteTo s e ctx.txOrigin p) p ctx.txOrigin, CallResult.success,
       [Event.voted e p
         (voteSize (storeVote (storeVoteTo s e ctx.txOrigin p) p ctx.txOrigin) p)
         cur.Members.length]) := by
  unfold voteCore
  dsimp only
  rw [if_neg hne]

/-- voteCore in the quorum-edge case: marks the record passed, persists
it, records the current hash and the epoch proof, runs the cleanup, and
publishes the epoch-change notification. -/
theorem voteCore_quorum (s : State) (ctx : Ctx) (cur ep : EpochInfo) (e : Nat) (p : EpochHash)
    (heq : voteSize (storeVote (storeVoteTo s e ctx.txOrigin p) p ctx.txOrigin) p =
      cur.QuorumSize) :
    voteCore s ctx cur ep e p =
      (dirtyJob
        (storeEpochProof
          (storeCurrentEpochHash
            (storeEpoch (storeVote (storeVoteTo s e ctx.txOrigin p) p ctx.txOrigin)
              { ep with status := ProposalStatus.passed })
            ({ ep with status := ProposalStatus.passed } : EpochInfo).Hash)
          ep.id ({ ep with status := ProposalStatus.passed } : EpochInfo).Hash)
        (some cur) { ep with status := ProposalStatus.passed },
       CallResult.success,
       [Event.voted e p
          (voteSize (storeVote (storeVoteTo s e ctx.txOrigin p) p ctx.txOrigin) p)
          cur.Members.length,
        Event.epochChanged cur { ep with status := ProposalStatus.passed },
        Event.epochChangeFeedSent ep.startHeight ep.startHeight
          ({ ep with status := ProposalStatus.passed } : EpochInfo).MemberList
          ({ ep with status := ProposalStatus.passed } : EpochInfo).Hash]) := by
  unfold voteCore
  dsimp only
  rw [if_pos heq]

/-- C6: with all guards satisfied (authorized voter, next-epoch id,
indexed Proposed proposal, open vote window, tally below quorum,
non-duplicate pointer), the Vote call succeeds, the new tally never
exceeds quorum, and: the call whose recorded tally equals exactly
quorum_size marks the record Passed, persists it, records the current
epoch hash and the epoch proof, runs the storage cleanup, and publishes
exactly one epoch-change notification; a call leaving the tally strictly
below quorum changes none of these and publishes no notification. -/
theorem c6_quorum_edge (s : State) (ctx : Ctx) (e : Nat) (p : EpochHash) (cur ep : EpochInfo)
    (hc : GetCurrentEpoch s = some cur)
    (ha : checkAuthority ctx.txOrigin ctx.caller cur = true)
    (he : e = cur.id + 1)
    (hf : findProposal s e p = true)
    (hp : s.epochs p = some ep)
    (hst : ep.status = ProposalStatus.proposed)
    (hid : e = ep.id)
    (hh : p = ep.Hash)
    (hht : ctx.blockHeight + MinVoteEffectivePeriod < ep.startHeight)
    (hq : voteSize s p < cur.QuorumSize)
    (hnd : findVoteTo s e ctx.txOrigin ≠ some p) :
    voteSize (storeVote (storeVoteTo (switchFilter s e ctx.txOrigin p) e ctx.txOrigin p)
        p ctx.txOrigin) p ≤ cur.QuorumSize ∧
    (Vote s ctx e p).2.1 = CallResult.success ∧
    (voteSize (storeVote (storeVoteTo (switchFilter s e ctx.txOrigin p) e ctx.txOrigin p)
        p ctx.txOrigin) p = cur.QuorumSize →
      (Vote s ctx e p).1.epochs p = some { ep with status := ProposalStatus.passed } ∧
      (Vote s ctx e p).1.currentHash = some p ∧
      (Vote s ctx e p).1.epochProof ep.id = some p ∧
      ((Vote s ctx e p).2.2.filter isEpochChangeFeedSent).length = 1 ∧
      (Vote s ctx e p).1 = dirtyJob
        (storeEpochProof
          (storeCurrentEpochHash
            (storeEpoch (storeVote (storeVoteTo (switchFilter s e ctx.txOrigin p)
                e ctx.txOrigin p) p ctx.txOrigin)
              { ep with status := ProposalStatus.passed }) p)
          ep.id p)
        (some cur) { ep with status := ProposalStatus.passed }) ∧
    (voteSize (storeVote (storeVoteTo (switchFilter s e ctx.txOrigin p) e ctx.txOrigin p)
        p ctx.txOrigin) p < cur.QuorumSize →
      (Vote s ctx e p).1 = storeVote (storeVoteTo (switchFilter s e ctx.txOrigin p)
        e ctx.txOrigin p) p ctx.txOrigin ∧
      (Vote s ctx e p).1.epochs p = some ep ∧
      (Vote s ctx e p).1.currentHash = s.currentHash ∧
      (Vote s ctx e p).1.epochProof = s.epochProof ∧
      ((Vote s ctx e p).2.2.filter isEpochChangeFeedSent).length = 0) := by
  have hmain := vote_main s ctx e p cur ep hc ha he hf hp hst hid hh hht hq hnd
  have hbound : voteSize (storeVote (storeVoteTo (switchFilter s e ctx.txOrigin p)
      e ctx.txOrigin p) p ctx.txOrigin) p ≤ cur.QuorumSize := by
    have h1 := storeVote_voteSize_le (storeVoteTo (switchFilter s e ctx.txOrigin p)
      e ctx.txOrigin p) p ctx.txOrigin
    have h2 : voteSize (storeVoteTo (switchFilter s e ctx.txOrigin p) e ctx.txOrigin p) p =
        voteSize (switchFilter s e ctx.txOrigin p) p := rfl
    have h3 := switchFilter_voteSize_le s e ctx.txOrigin p
    omega
  refine ⟨hbound, ?_, ?_, ?_⟩
  · rw [hmain]
    exact voteCore_result _ _ _ _ _ _
  · intro heq
    have hvc := voteCore_quorum (switchFilter s e ctx.txOrigin p) ctx cur ep e p (by
      have h2 : voteSize (storeVote (storeVoteTo (switchFilter s e ctx.txOrigin p)
          e ctx.txOrigin p) p ctx.txOrigin) p =
          voteSize (storeVote (storeVoteTo (switchFilter s e ctx.txOrigin p)
          e ctx.txOrigin p) p ctx.txOrigin) p := rfl
      exact heq)
    rw [hmain, hvc]
    have hpehash : ({ ep with status := ProposalStatus.passed } : EpochInfo).Hash = p := by
      rw [hash_set_status, ← hh]
    refine ⟨?_, ?_, ?_, ?_, ?_⟩
    · show (dirtyJob _ (some cur) _).epochs p = _
      unfold dirtyJob
      rw [dirtyFold_epochs, if_neg (fun hx => hx.2 (by rw [hpehash]))]
      rw [storeEpochProof_epochs, storeCurrentEpochHash_epochs, storeEpoch_epochs,
        if_pos (by rw [hpehash])]
    · show (dirtyJob _ (some cur) _).currentHash = _
      unfold dirtyJob
      rw [dirtyFold_currentHash, storeEpochProof_currentHash, storeCurrentEpochHash_currentHash,
        hpehash]
    · show (dirtyJob _ (some cur) _).epochProof ep.id = _
      unfold dirtyJob
      rw [dirtyFold_epochProof, storeEpochProof_epochProof]
      have : ({ ep with status := ProposalStatus.passed } : EpochInfo).id = ep.id := rfl
      rw [this, if_pos rfl, hpehash]
    · simp [isEpochChangeFeedSent]
    · rw [hpehash]
  · intro hlt
    have hvc := voteCore_below (switchFilter s e ctx.txOrigin p) ctx cur ep e p (by omega)
    rw [hmain, hvc]
    refine ⟨rfl, ?_, ?_, ?_, ?_⟩
    · rw [storeVote_epochs, storeVoteTo_epochs, switchFilter_epochs]
      exact hp
    · rw [storeVote_currentHash, storeVoteTo_currentHash, switchFilter_currentHash]
    · rw [storeVote_epochProof, storeVoteTo_epochProof, switchFilter_epochProof]
    · simp [isEpochChangeFeedSent]

/-- C6 witness: validator 3's vote for A in the two-proposal state
satisfies every guard; the call succeeds and the bound holds. -/
theorem c6_witness :
    voteSize (storeVote (storeVoteTo (switchFilter sAB 1 (ctxOf 3).txOrigin hashA)
      1 (ctxOf 3).txOrigin hashA) hashA (ctxOf 3).txOrigin) hashA ≤ ep0.QuorumSize ∧
    (Vote sAB (ctxOf 3) 1 hashA).2.1 = CallResult.success := by
  have h := c6_quorum_edge sAB (ctxOf 3) 1 hashA ep0 epA (by decide) (by decide) (by decide)
    (by decide) (by decide) (by decide) (by decide) (by decide) (by decide) (by decide)
    (by decide)
  exact ⟨h.1, h.2.1⟩

/-- Adding a fresh signer grows the signer set by exactly one. -/
theorem storeSigner_size (s : State) (h : SignHash) (v : Address)
    (hnc : (s.signers h).contains v = false) :
    getSignerSize (storeSigner s h v) h = getSignerSize s h + 1 := by
  unfold getSignerSize storeSigner
  dsimp only
  rw [if_pos rfl, if_neg (by simp only [hnc]; exact Bool.false_ne_true)]
  rfl

/-- The core of the sign gate rejects a duplicate signer. -/
theorem ccsCore_dup (s : State) (epoch : EpochInfo) (sign : ConsensusSign) (signer : Address)
    (hdup : findSigner s sign.Hash signer = true) :
    checkConsensusSignsCore s epoch sign signer =
      (s, SignResult.failure Err.duplicateSigner, []) := by
  unfold checkConsensusSignsCore
  rw [if_pos hdup]

/-- The core of the sign gate returns approval immediately once the
signer set already met quorum, without storing anything. -/
theorem ccsCore_fast (s : State) (epoch : EpochInfo) (sign : ConsensusSign) (signer : Address)
    (hdup : findSigner s sign.Hash signer = false)
    (hge : epoch.QuorumSize ≤ getSignerSize s sign.Hash) :
    checkConsensusSignsCore s epoch sign signer = (s, SignResult.success true, []) := by
  unfold checkConsensusSignsCore
  rw [if_neg (by simp [hdup])]
  dsimp only
  rw [if_pos hge]

/-- The core of the sign gate below quorum records the signer and reports
whether the new count reaches quorum. -/
theorem ccsCore_store (s : State) (epoch : EpochInfo) (sign : ConsensusSign) (signer : Address)
    (hdup : findSigner s sign.Hash signer = false)
    (hlt : getSignerSize s sign.Hash < epoch.QuorumSize) :
    checkConsensusSignsCore s epoch sign signer =
      (storeSigner s sign.Hash signer,
       SignResult.success
         (decide (epoch.QuorumSize ≤ getSignerSize (storeSigner s sign.Hash signer) sign.Hash)),
       [Event.consensusSigned sign signer
         (getSignerSize (storeSigner s sign.Hash signer) sign.Hash)]) := by
  unfold checkConsensusSignsCore
  rw [if_neg (by simp [hdup])]
  dsimp only
  rw [if_neg (by omega)]

/-- C7: for a fixed (method, input) pair, under an authorized signer and
a hash-consistent stored record: a signer who already contributed fails
with DuplicateSigner; a fresh signer whose set already met quorum gets
approved=true immediately; and a fresh signer below quorum is recorded,
the call reporting approval exactly when the new count reaches quorum —
so the quorum_size-th distinct signer and every later fresh signer get
approved=true. -/
theorem c7_consensus_gate (s : State) (ctx : Ctx) (m : String) (i : List Nat)
    (signer : Address) (cur : EpochInfo)
    (hc : GetCurrentEpoch s = some cur)
    (ha : checkAuthority signer ctx.caller cur = true)
    (hs : ∀ c, s.signs (ConsensusSign.Hash { method := m, input := i }) = some c →
      c.Hash = ConsensusSign.Hash { method := m, input := i }) :
    (findSigner s (ConsensusSign.Hash { method := m, input := i }) signer = true →
      (CheckConsensusSigns s ctx m i signer).2.1 = SignResult.failure Err.duplicateSigner) ∧
    (findSigner s (ConsensusSign.Hash { method := m, input := i }) signer = false →
      cur.QuorumSize ≤ getSignerSize s (ConsensusSign.Hash { method := m, input := i }) →
      (CheckConsensusSigns s ctx m i signer).2.1 = SignResult.success true) ∧
    (findSigner s (ConsensusSign.Hash { method := m, input := i }) signer = false →
      getSignerSize s (ConsensusSign.Hash { method := m, input := i }) < cur.QuorumSize →
      (CheckConsensusSigns s ctx m i signer).2.1 =
        SignResult.success (decide (cur.QuorumSize ≤
          getSignerSize s (ConsensusSign.Hash { method := m, input := i }) + 1)) ∧
      getSignerSize (CheckConsensusSigns s ctx m i signer).1
          (ConsensusSign.Hash { method := m, input := i }) =
        getSignerSize s (ConsensusSign.Hash { method := m, input := i }) + 1) := by
  have key : ∃ s0 : State, s0.signers = s.signers ∧
      CheckConsensusSigns s ctx m i signer =
        checkConsensusSignsCore s0 cur { method := m, input := i } signer := by
    unfold CheckConsensusSigns
    rw [hc]
    dsimp only
    rw [if_neg (by simp [ha])]
    cases hsg : s.signs (ConsensusSign.Hash { method := m, input := i }) with
    | none => exact ⟨storeSign s { method := m, input := i }, rfl, rfl⟩
    | some ex =>
      dsimp only
      have hex := hs ex hsg
      rw [if_neg (fun hx => hx hex)]
      exact ⟨s, rfl, rfl⟩
  rcases key with ⟨s0, hsgn, hccs⟩
  have hfind : findSigner s0 (ConsensusSign.Hash { method := m, input := i }) signer =
      findSigner s (ConsensusSign.Hash { method := m, input := i }) signer := by
    unfold findSigner
    rw [hsgn]
  have hsize : getSignerSize s0 (ConsensusSign.Hash { method := m, input := i }) =
      getSignerSize s (ConsensusSign.Hash { method := m, input := i }) := by
    unfold getSignerSize
    rw [hsgn]
  refine ⟨?_, ?_, ?_⟩
  · intro hdup
    rw [hccs, ccsCore_dup s0 cur _ signer (by rw [hfind]; exact hdup)]
  · intro hdup hge
    rw [hccs, ccsCore_fast s0 cur _ signer (by rw [hfind]; exact hdup)
      (by rw [hsize]; exact hge)]
  · intro hdup hlt
    have hstore := ccsCore_store s0 cur { method := m, input := i } signer
      (by rw [hfind]; exact hdup) (by rw [hsize]; exact hlt)
    have hone : getSignerSize (storeSigner s0 (ConsensusSign.Hash { method := m, input := i })
        signer) (ConsensusSign.Hash { method := m, input := i }) =
        getSignerSize s (ConsensusSign.Hash { method := m, input := i }) + 1 := by
      rw [storeSigner_size s0 _ signer (by
        have : (s0.signers (ConsensusSign.Hash { method := m, input := i })).contains signer =
            findSigner s0 (ConsensusSign.Hash { method := m, input := i }) signer := rfl
        rw [this, hfind]
        exact hdup), hsize]
    constructor
    · rw [hccs, hstore]
      dsimp only
      rw [hone]
    · rw [hccs, hstore]
      dsimp only
      exact hone

/-- C7 witness: the first signer on a fresh record is recorded, not yet
approved (quorum 3), and the signer count becomes one. -/
theorem c7_witness :
    (CheckConsensusSigns genesisState (ctxOf 1) "m0" [7] 1).2.1 =
      SignResult.success
        (decide (ep0.QuorumSize ≤ getSignerSize genesisState sigM.Hash + 1)) ∧
    getSignerSize (CheckConsensusSigns genesisState (ctxOf 1) "m0" [7] 1).1 sigM.Hash =
      getSignerSize genesisState sigM.Hash + 1 := by
  have h := c7_consensus_gate genesisState (ctxOf 1) "m0" [7] 1 ep0 (by decide) (by decide)
    (fun c hcc => by simp [genesisState, mkGenesis] at hcc)
  exact h.2.2 (by decide) (by decide)

/-- Propose either leaves the state unchanged or, with the size and
duplicate guards known to have passed, writes exactly the new record, its
index entry, the proposer's self-vote and the proposer's pointer. -/
theorem propose_eq_cases (s : State) (ctx : Ctx) (peersIn : List Peer) (sh : Nat) :
    (Propose s ctx peersIn sh).1 = s ∨
    ∃ cur epoch, GetCurrentEpoch s = some cur ∧
      epoch.id = cur.id + 1 ∧
      epoch.peers = sortPeers peersIn ∧
      epoch.status = ProposalStatus.proposed ∧
      4 ≤ peersIn.length ∧ peersIn.length ≤ 100 ∧
      checkProposal s (cur.id + 1) epoch.Hash = false ∧
      (Propose s ctx peersIn sh).1 =
        storeVoteTo
          (storeVote (storeProposal (storeEpoch s epoch) (cur.id + 1) epoch.Hash)
            epoch.Hash ctx.txOrigin)
          (cur.id + 1) ctx.txOrigin epoch.Hash := by
  have key : ∀ res : State × CallResult × List Event, Propose s ctx peersIn sh = res →
      res.1 = s ∨
      ∃ cur epoch, GetCurrentEpoch s = some cur ∧
        epoch.id = cur.id + 1 ∧
        epoch.peers = sortPeers peersIn ∧
        epoch.status = ProposalStatus.proposed ∧
        4 ≤ peersIn.length ∧ peersIn.length ≤ 100 ∧
        checkProposal s (cur.id + 1) epoch.Hash = false ∧
        res.1 =
          storeVoteTo
            (storeVote (storeProposal (storeEpoch s epoch) (cur.id + 1) epoch.Hash)
              epoch.Hash ctx.txOrigin)
            (cur.id + 1) ctx.txOrigin epoch.Hash := by
    intro res hres
    unfold Propose at hres
    by_cases hsh0 : 0 < sh
    · cases hc : GetCurrentEpoch s with
      | none =>
        rw [hc] at hres
        subst hres
        exact Or.inl rfl
      | some cur =>
      rw [hc] at hres
      dsimp only at hres
      rw [if_pos hsh0] at hres
      split at hres
      · subst hres; exact Or.inl rfl
      next hauth =>
      split at hres
      · subst hres; exact Or.inl rfl
      next hempty =>
      split at hres
      · subst hres; exact Or.inl rfl
      next hsize =>
      split at hres
      · subst hres; exact Or.inl rfl
      next hpk =>
      split at hres
      · subst hres; exact Or.inl rfl
      next hold =>
      split at hres
      · subst hres; exact Or.inl rfl
      next hwin =>
      split at hres
      · subst hres; exact Or.inl rfl
      next hdup =>
      split at hres
      · subst hres; exact Or.inl rfl
      next hnum =>
      subst hres
      have hb : 4 ≤ peersIn.length ∧ peersIn.length ≤ 100 := by
        unfold MinProposalPeersLen MaxProposalPeersLen at hsize
        omega
      exact Or.inr ⟨cur,
        { id := cur.id + 1, peers := sortPeers peersIn, startHeight := sh,
          proposer := ctx.txOrigin, status := ProposalStatus.proposed },
        rfl, rfl, rfl, rfl, hb.1, hb.2, by simpa using hdup, rfl⟩

    · cases hc : GetCurrentEpoch s with
      | none =>
        rw [hc] at hres
        subst hres
        exact Or.inl rfl
      | some cur =>
      rw [hc] at hres
      dsimp only at hres
      rw [if_neg hsh0] at hres
      split at hres
      · subst hres; exact Or.inl rfl
      next hauth =>
      split at hres
      · subst hres; exact Or.inl rfl
      next hempty =>
      split at hres
      · subst hres; exact Or.inl rfl
      next hsize =>
      split at hres
      · subst hres; exact Or.inl rfl
      next hpk =>
      split at hres
      · subst hres; exact Or.inl rfl
      next hold =>
      split at hres
      · subst hres; exact Or.inl rfl
      next hwin =>
      split at hres
      · subst hres; exact Or.inl rfl
      next hdup =>
      split at hres
      · subst hres; exact Or.inl rfl
      next hnum =>
      subst hres
      have hb : 4 ≤ peersIn.length ∧ peersIn.length ≤ 100 := by
        unfold MinProposalPeersLen MaxProposalPeersLen at hsize
        omega
      exact Or.inr ⟨cur,
        { id := cur.id + 1, peers := sortPeers peersIn, startHeight := ctx.blockHeight + DefaultEpochValidPeriod,
          proposer := ctx.txOrigin, status := ProposalStatus.proposed },
        rfl, rfl, rfl, rfl, hb.1, hb.2, by simpa using hdup, rfl⟩

  exact key _ rfl

/-- Vote either leaves the state unchanged or, with every guard known to
have passed and a non-duplicate pointer, produces the voteCore outcome
applied to either the unfiltered or the switch-filtered state. -/
theorem vote_eq_cases (s : State) (ctx : Ctx) (e : Nat) (p : EpochHash) :
    (Vote s ctx e p).1 = s ∨
    ∃ cur ep, GetCurrentEpoch s = some cur ∧
      e = cur.id + 1 ∧
      s.epochs p = some ep ∧
      ep.status = ProposalStatus.proposed ∧
      e = ep.id ∧ p = ep.Hash ∧
      voteSize s p < cur.QuorumSize ∧
      ∃ s1 : State,
        (s1 = s ∨ s1 = deleteVote (delVoteTo s e ctx.txOrigin) p ctx.txOrigin) ∧
        (Vote s ctx e p).1 = (voteCore s1 ctx cur ep e p).1 := by
  have key : ∀ res : State × CallResult × List Event, Vote s ctx e p = res →
      res.1 = s ∨
      ∃ cur ep, GetCurrentEpoch s = some cur ∧
        e = cur.id + 1 ∧
        s.epochs p = some ep ∧
        ep.status = ProposalStatus.proposed ∧
        e = ep.id ∧ p = ep.Hash ∧
        voteSize s p < cur.QuorumSize ∧
        ∃ s1 : State,
          (s1 = s ∨ s1 = deleteVote (delVoteTo s e ctx.txOrigin) p ctx.txOrigin) ∧
          res.1 = (voteCore s1 ctx cur ep e p).1 := by
    intro res hres
    unfold Vote at hres
    cases hc : GetCurrentEpoch s with
    | none =>
      rw [hc] at hres
      subst hres
      exact Or.inl rfl
    | some cur =>
      rw [hc] at hres
      dsimp only at hres
      split at hres
      · subst hres; exact Or.inl rfl
      next hauth =>
      split at hres
      · subst hres; exact Or.inl rfl
      next hid' =>
      split at hres
      · subst hres; exact Or.inl rfl
      next hf' =>
      split at hres
      · subst hres; exact Or.inl rfl
      next epoch heq =>
      split at hres
      · subst hres; exact Or.inl rfl
      next hpassed =>
      split at hres
      · subst hres; exact Or.inl rfl
      next heid =>
      split at hres
      · subst hres; exact Or.inl rfl
      next hhash =>
      split at hres
      · subst hres; exact Or.inl rfl
      next hheight =>
      split at hres
      · subst hres; exact Or.inl rfl
      next hquorum =>
      have hei : e = cur.id + 1 := not_not.mp hid'
      have hst : epoch.status = ProposalStatus.proposed := by
        cases hx : epoch.status with
        | proposed => rfl
        | passed => exact absurd hx hpassed
      have heqid : e = epoch.id := not_not.mp heid
      have heqh : p = epoch.Hash := not_not.mp hhash
      have hq : voteSize s p < cur.QuorumSize := by omega
      cases hv : findVoteTo s e ctx.txOrigin with
      | none =>
        rw [hv] at hres
        subst hres
        exact Or.inr ⟨cur, epoch, rfl, hei, heq, hst, heqid, heqh, hq, s, Or.inl rfl, rfl⟩
      | some q =>
        rw [hv] at hres
        dsimp only at hres
        split at hres
        · subst hres; exact Or.inl rfl
        next hqp =>
        subst hres
        exact Or.inr ⟨cur, epoch, rfl, hei, heq, hst, heqid, heqh, hq,
          deleteVote (delVoteTo s e ctx.txOrigin) p ctx.txOrigin, Or.inr rfl, rfl⟩
  exact key _ rfl

/-- The sign gate leaves the current hash unchanged. -/
theorem ccs_currentHash (s ctx m i a) :
    (CheckConsensusSigns s ctx m i a).1.currentHash = s.currentHash := by
  unfold CheckConsensusSigns checkConsensusSignsCore
  cases hc : GetCurrentEpoch s with
  | none => rfl
  | some cur =>
    dsimp only
    repeat' split
    all_goals rfl

/-- The sign gate leaves the epoch records unchanged. -/
theorem ccs_epochs (s ctx m i a) :
    (CheckConsensusSigns s ctx m i a).1.epochs = s.epochs := by
  unfold CheckConsensusSigns checkConsensusSignsCore
  cases hc : GetCurrentEpoch s with
  | none => rfl
  | some cur =>
    dsimp only
    repeat' split
    all_goals rfl

/-- The sign gate leaves the proposal index unchanged. -/
theorem ccs_proposals (s ctx m i a) :
    (CheckConsensusSigns s ctx m i a).1.proposals = s.proposals := by
  unfold CheckConsensusSigns checkConsensusSignsCore
  cases hc : GetCurrentEpoch s with
  | none => rfl
  | some cur =>
    dsimp only
    repeat' split
    all_goals rfl

/-- The sign gate leaves the vote sets unchanged. -/
theorem ccs_votes (s ctx m i a) :
    (CheckConsensusSigns s ctx m i a).1.votes = s.votes := by
  unfold CheckConsensusSigns checkConsensusSignsCore
  cases hc : GetCurrentEpoch s with
  | none => rfl
  | some cur =>
    dsimp only
    repeat' split
    all_goals rfl

/-- The sign gate leaves the vote pointers unchanged. -/
theorem ccs_voteTo (s ctx m i a) :
    (CheckConsensusSigns s ctx m i a).1.voteTo = s.voteTo := by
  unfold CheckConsensusSigns checkConsensusSignsCore
  cases hc : GetCurrentEpoch s with
  | none => rfl
  | some cur =>
    dsimp only
    repeat' split
    all_goals rfl

/-- Resolving the current epoch from explicit hash and record facts. -/
theorem getCurrentEpoch_mk (s' : State) (ch : EpochHash) (cur : EpochInfo)
    (h1 : s'.currentHash = some ch) (h2 : s'.epochs ch = some cur) :
    GetCurrentEpoch s' = some cur := by
  unfold GetCurrentEpoch
  rw [h1]
  exact h2

/-- Decomposing a resolved current epoch into its hash and record. -/
theorem getCurrentEpoch_eq (s : State) (cur : EpochInfo) (h : GetCurrentEpoch s = some cur) :
    ∃ ch0, s.currentHash = some ch0 ∧ s.epochs ch0 = some cur := by
  unfold GetCurrentEpoch at h
  cases hch : s.currentHash with
  | none => rw [hch] at h; cases h
  | some c => rw [hch] at h; exact ⟨c, rfl, h⟩

/-- The bootstrap state's epoch records. -/
theorem mkGenesis_epochs (ep : EpochInfo) (h : EpochHash) :
    (mkGenesis ep).epochs h = if h = ep.Hash then some ep else none := rfl

/-- The bootstrap state's current hash. -/
theorem mkGenesis_currentHash (ep : EpochInfo) :
    (mkGenesis ep).currentHash = some ep.Hash := rfl

/-- The bootstrap state's proposal index is empty. -/
theorem mkGenesis_proposals (ep : EpochInfo) (i : Nat) :
    (mkGenesis ep).proposals i = [] := rfl

/-- The bootstrap state's vote sets are empty. -/
theorem mkGenesis_votes (ep : EpochInfo) (h : EpochHash) :
    (mkGenesis ep).votes h = [] := rfl

/-- A failed duplicate check means the hash is not indexed. -/
theorem checkProposal_false_not_mem (s : State) (i : Nat) (h : EpochHash)
    (hc : checkProposal s i h = false) : h ∉ s.proposals i := by
  intro hm
  have ht : checkProposal s i h = true := List.elem_iff.mpr hm
  rw [hc] at ht
  cases ht

/-- The content hash of an epoch record carries the record's id. -/
theorem epochHash_id (e : EpochInfo) : e.Hash.id = e.id := rfl

/-- The bootstrap state satisfies the storage invariant. -/
theorem inv_genesis (ep : EpochInfo) (hst : ep.status = ProposalStatus.passed)
    (hlo : 4 ≤ ep.peers.length) (hhi : ep.peers.length ≤ 100) : Inv (mkGenesis ep) := by
  have hget : GetCurrentEpoch (mkGenesis ep) = some ep :=
    getCurrentEpoch_mk _ ep.Hash ep (mkGenesis_currentHash ep)
      (by rw [mkGenesis_epochs, if_pos rfl])
  refine ⟨⟨ep, hget⟩, ?_, ?_, ?_, ?_, ?_, ?_, ?_, ?_, ?_⟩
  · intro h e0 hp
    rw [mkGenesis_epochs] at hp
    split at hp
    · next hh =>
      cases hp
      rw [hh]
    · cases hp
  · intro h e0 hp
    rw [mkGenesis_epochs] at hp
    split at hp
    · cases hp
      exact hlo
    · cases hp
  · intro h e0 hp
    rw [mkGenesis_epochs] at hp
    split at hp
    · cases hp
      exact hhi
    · cases hp
  · intro h e0 cur hcur hp hstp
    rw [hget] at hcur
    cases hcur
    rw [mkGenesis_epochs] at hp
    split at hp
    · cases hp
      exact le_refl _
    · cases hp
  · intro h e0 cur hcur hp hstp
    rw [mkGenesis_epochs] at hp
    split at hp
    · cases hp
      rw [hst] at hstp
      cases hstp
    · cases hp
  · intro h e0 cur hcur hp hstp
    rw [mkGenesis_epochs] at hp
    split at hp
    · cases hp
      rw [hst] at hstp
      cases hstp
    · cases hp
  · intro h _
    exact mkGenesis_votes ep h
  · intro i h hm
    rw [mkGenesis_proposals] at hm
    cases hm
  · intro h e0 cur hcur hp hstp
    rw [mkGenesis_epochs] at hp
    split at hp
    · cases hp
      rw [hst] at hstp
      cases hstp
    · cases hp

/-- The sign gate preserves the storage invariant: it touches only the
sign records and signer sets. -/
theorem inv_sign (s : State) (ctx : Ctx) (m : String) (i : List Nat) (a : Address)
    (hInv : Inv s) : Inv (CheckConsensusSigns s ctx m i a).1 := by
  have h1 := ccs_currentHash s ctx m i a
  have h2 := ccs_epochs s ctx m i a
  have h3 := ccs_proposals s ctx m i a
  have h4 := ccs_votes s ctx m i a
  have hget : GetCurrentEpoch (CheckConsensusSigns s ctx m i a).1 = GetCurrentEpoch s := by
    unfold GetCurrentEpoch
    rw [h1, h2]
  refine ⟨?_, ?_, ?_, ?_, ?_, ?_, ?_, ?_, ?_, ?_⟩
  · obtain ⟨cur, hcur⟩ := hInv.cur_exists
    exact ⟨cur, by rw [hget]; exact hcur⟩
  · intro h ep hp
    rw [h2] at hp
    exact hInv.hash_key h ep hp
  · intro h ep hp
    rw [h2] at hp
    exact hInv.peers_lo h ep hp
  · intro h ep hp
    rw [h2] at hp
    exact hInv.peers_hi h ep hp
  · intro h ep cur hcur hp hstp
    rw [hget] at hcur
    rw [h2] at hp
    exact hInv.passed_le h ep cur hcur hp hstp
  · intro h ep cur hcur hp hstp
    rw [hget] at hcur
    rw [h2] at hp
    exact hInv.proposed_id h ep cur hcur hp hstp
  · intro h ep cur hcur hp hstp
    rw [hget] at hcur
    rw [h2] at hp
    rw [h3]
    exact hInv.proposed_indexed h ep cur hcur hp hstp
  · intro h hp
    rw [h2] at hp
    rw [h4]
    exact hInv.votes_empty h hp
  · intro i' h hm
    rw [h3] at hm
    exact hInv.index_id i' h hm
  · intro h ep cur hcur hp hstp
    rw [hget] at hcur
    rw [h2] at hp
    have ht := hInv.tally_lt h ep cur hcur hp hstp
    unfold voteSize
    rw [h4]
    exact ht

/-- Propose preserves the storage invariant. -/
theorem inv_propose (s : State) (ctx : Ctx) (peersIn : List Peer) (sh : Nat)
    (hInv : Inv s) : Inv (Propose s ctx peersIn sh).1 := by
  rcases propose_eq_cases s ctx peersIn sh with hu |
    ⟨cur, epoch, hc, hid, hpeers, hstp, hlo, hhi, hdup, heqs⟩
  · rw [hu]; exact hInv
  rw [heqs]
  obtain ⟨ch0, hch0, hcur0⟩ := getCurrentEpoch_eq s cur hc
  have hphid : epoch.Hash.id = cur.id + 1 := by rw [epochHash_id, hid]
  have hchid : ch0.id = cur.id := by
    have hk := hInv.hash_key ch0 cur hcur0
    rw [← hk]
    rfl
  have hchne : ch0 ≠ epoch.Hash := by
    intro hx
    rw [hx, hphid] at hchid
    omega
  have hnone : s.epochs epoch.Hash = none := by
    cases hx : s.epochs epoch.Hash with
    | none => rfl
    | some e0 =>
      have hkey := hInv.hash_key _ _ hx
      have he0id : e0.id = cur.id + 1 := by
        rw [← epochHash_id, hkey, hphid]
      cases hs0 : e0.status with
      | passed =>
        have hle := hInv.passed_le _ _ _ hc hx hs0
        exact absurd he0id (by omega)
      | proposed =>
        have hin := hInv.proposed_indexed _ _ _ hc hx hs0
        exact absurd hin (checkProposal_false_not_mem s _ _ hdup)
  have hvempty : s.votes epoch.Hash = [] := hInv.votes_empty _ hnone
  have hcontp : ¬ ((s.proposals (cur.id + 1)).contains epoch.Hash = true) := by
    have hdup' : (s.proposals (cur.id + 1)).contains epoch.Hash = false := hdup
    rw [hdup']
    exact Bool.false_ne_true
  have hBep : ∀ h, (storeVoteTo
      (storeVote (storeProposal (storeEpoch s epoch) (cur.id + 1) epoch.Hash)
        epoch.Hash ctx.txOrigin)
      (cur.id + 1) ctx.txOrigin epoch.Hash).epochs h =
      if h = epoch.Hash then some epoch else s.epochs h := by
    intro h
    rw [storeVoteTo_epochs, storeVote_epochs, storeProposal_epochs, storeEpoch_epochs]
  have hBprop : ∀ i, (storeVoteTo
      (storeVote (storeProposal (storeEpoch s epoch) (cur.id + 1) epoch.Hash)
        epoch.Hash ctx.txOrigin)
      (cur.id + 1) ctx.txOrigin epoch.Hash).proposals i =
      if i = cur.id + 1 then epoch.Hash :: s.proposals (cur.id + 1) else s.proposals i := by
    intro i
    rw [storeVoteTo_proposals, storeVote_proposals, storeProposal_proposals,
      storeEpoch_proposals]
    by_cases hi : i = cur.id + 1
    · rw [if_pos hi, if_pos hi, if_neg hcontp]
    · rw [if_neg hi, if_neg hi]
  have hBvotes : ∀ h, (storeVoteTo
      (storeVote (storeProposal (storeEpoch s epoch) (cur.id + 1) epoch.Hash)
        epoch.Hash ctx.txOrigin)
      (cur.id + 1) ctx.txOrigin epoch.Hash).votes h =
      if h = epoch.Hash then [ctx.txOrigin] else s.votes h := by
    intro h
    rw [storeVoteTo_votes, storeVote_votes, storeProposal_votes, storeEpoch_votes]
    by_cases hh : h = epoch.Hash
    · rw [if_pos hh, if_pos hh, hvempty]
      rfl
    · rw [if_neg hh, if_neg hh]
  have hBch : (storeVoteTo
      (storeVote (storeProposal (storeEpoch s epoch) (cur.id + 1) epoch.Hash)
        epoch.Hash ctx.txOrigin)
      (cur.id + 1) ctx.txOrigin epoch.Hash).currentHash = s.currentHash := by
    rw [storeVoteTo_currentHash, storeVote_currentHash, storeProposal_currentHash,
      storeEpoch_currentHash]
  have hget : GetCurrentEpoch (storeVoteTo
      (storeVote (storeProposal (storeEpoch s epoch) (cur.id + 1) epoch.Hash)
        epoch.Hash ctx.txOrigin)
      (cur.id + 1) ctx.txOrigin epoch.Hash) = some cur := by
    refine getCurrentEpoch_mk _ ch0 cur (by rw [hBch]; exact hch0) ?_
    rw [hBep, if_neg hchne]
    exact hcur0
  refine ⟨⟨cur, hget⟩, ?_, ?_, ?_, ?_, ?_, ?_, ?_, ?_, ?_⟩
  · intro h ep hp
    rw [hBep] at hp
    split at hp
    · next hh =>
      cases hp
      rw [hh]
    · exact hInv.hash_key h ep hp
  · intro h ep hp
    rw [hBep] at hp
    split at hp
    · cases hp
      rw [hpeers, sortPeers_length]
      exact hlo
    · exact hInv.peers_lo h ep hp
  · intro h ep hp
    rw [hBep] at hp
    split at hp
    · cases hp
      rw [hpeers, sortPeers_length]
      exact hhi
    · exact hInv.peers_hi h ep hp
  · intro h ep cur' hcur' hp hstp'
    rw [hget] at hcur'
    cases hcur'
    rw [hBep] at hp
    split at hp
    · cases hp
      rw [hstp] at hstp'
      cases hstp'
    · exact hInv.passed_le h ep cur hc hp hstp'
  · intro h ep cur' hcur' hp hstp'
    rw [hget] at hcur'
    cases hcur'
    rw [hBep] at hp
    split at hp
    · cases hp
      exact hid
    · exact hInv.proposed_id h ep cur hc hp hstp'
  · intro h ep cur' hcur' hp hstp'
    rw [hget] at hcur'
    cases hcur'
    rw [hBprop, if_pos rfl]
    rw [hBep] at hp
    split at hp
    · next hh =>
      rw [hh]
      exact List.mem_cons_self _ _
    · exact List.mem_cons_of_mem _ (hInv.proposed_indexed h ep cur hc hp hstp')
  · intro h hp
    rw [hBep] at hp
    split at hp
    · cases hp
    · next hh =>
      rw [hBvotes, if_neg hh]
      exact hInv.votes_empty h hp
  · intro i h hm
    rw [hBprop] at hm
    split at hm
    · next hi =>
      rcases List.mem_cons.mp hm with h1 | h1
      · rw [h1, hphid, hi]
      · rw [hInv.index_id _ _ h1, hi]
    · exact hInv.index_id i h hm
  · intro h ep cur' hcur' hp hstp'
    rw [hget] at hcur'
    cases hcur'
    have hq3 : 3 ≤ cur.QuorumSize :=
      quorumSize_ge_three cur (hInv.peers_lo ch0 cur hcur0)
    rw [hBep] at hp
    unfold voteSize
    rw [hBvotes]
    split at hp
    · next hh =>
      rw [if_pos hh]
      simp only [List.length_cons, List.length_nil]
      omega
    · next hh =>
      rw [if_neg hh]
      exact hInv.tally_lt h ep cur hc hp hstp'

/-- Vote preserves the storage invariant. -/
theorem inv_vote (s : State) (ctx : Ctx) (e : Nat) (p : EpochHash)
    (hInv : Inv s) : Inv (Vote s ctx e p).1 := by
  rcases vote_eq_cases s ctx e p with hu |
    ⟨cur, ep, hc, he, hp, hst, hid, hh, hq, s1, hs1, heqv⟩
  · rw [hu]; exact hInv
  rw [heqv]
  obtain ⟨ch0, hch0, hcur0⟩ := getCurrentEpoch_eq s cur hc
  have hs1ep : s1.epochs = s.epochs := by
    rcases hs1 with rfl | rfl
    · rfl
    · rw [deleteVote_epochs, delVoteTo_epochs]
  have hs1prop : s1.proposals = s.proposals := by
    rcases hs1 with rfl | rfl
    · rfl
    · rw [deleteVote_proposals, delVoteTo_proposals]
  have hs1ch : s1.currentHash = s.currentHash := by
    rcases hs1 with rfl | rfl
    · rfl
    · rw [deleteVote_currentHash, delVoteTo_currentHash]
  have hs1votes_ne : ∀ h, h ≠ p → s1.votes h = s.votes h := by
    intro h hne
    rcases hs1 with rfl | rfl
    · rfl
    · rw [deleteVote_votes, if_neg hne, delVoteTo_votes]
  have hs1size : voteSize s1 p ≤ voteSize s p := by
    rcases hs1 with rfl | rfl
    · exact le_refl _
    · unfold voteSize
      rw [deleteVote_votes, if_pos rfl, delVoteTo_votes]
      exact List.length_filter_le _ _
  have hs2ep : (storeVote (storeVoteTo s1 e ctx.txOrigin p) p ctx.txOrigin).epochs =
      s.epochs := by
    rw [storeVote_epochs, storeVoteTo_epochs, hs1ep]
  have hs2prop : (storeVote (storeVoteTo s1 e ctx.txOrigin p) p ctx.txOrigin).proposals =
      s.proposals := by
    rw [storeVote_proposals, storeVoteTo_proposals, hs1prop]
  have hs2ch : (storeVote (storeVoteTo s1 e ctx.txOrigin p) p ctx.txOrigin).currentHash =
      s.currentHash := by
    rw [storeVote_currentHash, storeVoteTo_currentHash, hs1ch]
  have hs2votes_ne : ∀ h, h ≠ p →
      (storeVote (storeVoteTo s1 e ctx.txOrigin p) p ctx.txOrigin).votes h = s.votes h := by
    intro h hne
    rw [storeVote_votes, if_neg hne, storeVoteTo_votes, hs1votes_ne h hne]
  have hs2size : voteSize (storeVote (storeVoteTo s1 e ctx.txOrigin p) p ctx.txOrigin) p ≤
      voteSize s1 p + 1 := by
    have h1 := storeVote_voteSize_le (storeVoteTo s1 e ctx.txOrigin p) p ctx.txOrigin
    have h2 : voteSize (storeVoteTo s1 e ctx.txOrigin p) p = voteSize s1 p := rfl
    omega
  by_cases hteq :
    voteSize (storeVote (storeVoteTo s1 e ctx.txOrigin p) p ctx.txOrigin) p = cur.QuorumSize
  · -- quorum edge: the transition fires
    rw [voteCore_quorum s1 ctx cur ep e p hteq]
    dsimp only
    have hpeh : ({ ep with status := ProposalStatus.passed } : EpochInfo).Hash = p := by
      rw [hash_set_status, ← hh]
    have hpeid : ({ ep with status := ProposalStatus.passed } : EpochInfo).id = cur.id + 1 := by
      show ep.id = cur.id + 1
      omega
    have hs5ep : ∀ h,
        (storeEpochProof
          (storeCurrentEpochHash
            (storeEpoch (storeVote (storeVoteTo s1 e ctx.txOrigin p) p ctx.txOrigin)
              { ep with status := ProposalStatus.passed })
            ({ ep with status := ProposalStatus.passed } : EpochInfo).Hash)
          ep.id ({ ep with status := ProposalStatus.passed } : EpochInfo).Hash).epochs h =
        if h = ({ ep with status := ProposalStatus.passed } : EpochInfo).Hash
          then some { ep with status := ProposalStatus.passed } else s.epochs h := by
      intro h
      rw [storeEpochProof_epochs, storeCurrentEpochHash_epochs, storeEpoch_epochs, hs2ep]
    have hs5prop :
        (storeEpochProof
          (storeCurrentEpochHash
            (storeEpoch (storeVote (storeVoteTo s1 e ctx.txOrigin p) p ctx.txOrigin)
              { ep with status := ProposalStatus.passed })
            ({ ep with status := ProposalStatus.passed } : EpochInfo).Hash)
          ep.id ({ ep with status := ProposalStatus.passed } : EpochInfo).Hash).proposals =
        s.proposals := by
      rw [storeEpochProof_proposals, storeCurrentEpochHash_proposals, storeEpoch_proposals,
        hs2prop]
    have hs5ch :
        (storeEpochProof
          (storeCurrentEpochHash
            (storeEpoch (storeVote (storeVoteTo s1 e ctx.txOrigin p) p ctx.txOrigin)
              { ep with status := ProposalStatus.passed })
            ({ ep with status := ProposalStatus.passed } : EpochInfo).Hash)
          ep.id ({ ep with status := ProposalStatus.passed } : EpochInfo).Hash).currentHash =
        some p := by
      rw [storeEpochProof_currentHash, storeCurrentEpochHash_currentHash, hpeh]
    have hs5votes :
        (storeEpochProof
          (storeCurrentEpochHash
            (storeEpoch (storeVote (storeVoteTo s1 e ctx.txOrigin p) p ctx.txOrigin)
              { ep with status := ProposalStatus.passed })
            ({ ep with status := ProposalStatus.passed } : EpochInfo).Hash)
          ep.id ({ ep with status := ProposalStatus.passed } : EpochInfo).Hash).votes =
        (storeVote (storeVoteTo s1 e ctx.txOrigin p) p ctx.txOrigin).votes := by
      rw [storeEpochProof_votes, storeCurrentEpochHash_votes, storeEpoch_votes]
    set pe : EpochInfo := { ep with status := ProposalStatus.passed } with hpedef
    set s2 : State := storeVote (storeVoteTo s1 e ctx.txOrigin p) p ctx.txOrigin with hs2def
    set s5 : State := storeEpochProof (storeCurrentEpochHash (storeEpoch s2 pe) pe.Hash)
      ep.id pe.Hash with hs5def
    have hLeq : getProposals s5 pe.id = s.proposals (cur.id + 1) := by
      unfold getProposals
      rw [hs5prop, hpeid]
    have hcond : ∀ h : EpochHash,
        (h ∈ getProposals s5 pe.id ∧ h ≠ pe.Hash) ↔
        (h ∈ s.proposals (cur.id + 1) ∧ h ≠ p) := by
      intro h
      rw [hLeq, hpeh]
    have hBep : ∀ h, (dirtyJob s5 (some cur) pe).epochs h =
        if h ∈ getProposals s5 pe.id ∧ h ≠ pe.Hash then none else s5.epochs h := by
      intro h
      unfold dirtyJob
      rw [dirtyFold_epochs]
    have hBvotes : ∀ h, (dirtyJob s5 (some cur) pe).votes h =
        if h ∈ getProposals s5 pe.id ∧ h ≠ pe.Hash then [] else s5.votes h := by
      intro h
      unfold dirtyJob
      rw [dirtyFold_votes]
    have hBch : (dirtyJob s5 (some cur) pe).currentHash = some p := by
      unfold dirtyJob
      rw [dirtyFold_currentHash, hs5ch]
    have hBpropm : ∀ j x, x ∈ (dirtyJob s5 (some cur) pe).proposals j →
        x ∈ s.proposals j := by
      intro j x hx
      unfold dirtyJob at hx
      have := dirtyFold_proposals_mono pe.id pe.Hash (some cur) j x _ s5 hx
      rw [show s5.proposals = s.proposals from hs5prop] at this
      exact this
    have hBp : (dirtyJob s5 (some cur) pe).epochs p = some pe := by
      rw [hBep, if_neg (fun hx => hx.2 hpeh.symm), hs5ep, if_pos hpeh.symm]
    have hGetB : GetCurrentEpoch (dirtyJob s5 (some cur) pe) = some pe :=
      getCurrentEpoch_mk _ p pe hBch hBp
    have hnoprop : ∀ h x, (dirtyJob s5 (some cur) pe).epochs h = some x →
        x.status = ProposalStatus.proposed → False := by
      intro h x hx hstx
      rw [hBep] at hx
      by_cases hcnd : h ∈ getProposals s5 pe.id ∧ h ≠ pe.Hash
      · rw [if_pos hcnd] at hx
        cases hx
      · rw [if_neg hcnd] at hx
        rw [hs5ep] at hx
        by_cases hhp : h = pe.Hash
        · rw [if_pos hhp] at hx
          cases hx
          rw [show pe.status = ProposalStatus.passed from rfl] at hstx
          cases hstx
        · rw [if_neg hhp] at hx
          have hin := hInv.proposed_indexed h x cur hc hx hstx
          refine hcnd ⟨?_, hhp⟩
          rw [hLeq]
          exact hin
    refine ⟨⟨pe, hGetB⟩, ?_, ?_, ?_, ?_, ?_, ?_, ?_, ?_, ?_⟩
    · intro h x hx
      rw [hBep] at hx
      by_cases hcnd : h ∈ getProposals s5 pe.id ∧ h ≠ pe.Hash
      · rw [if_pos hcnd] at hx
        cases hx
      · rw [if_neg hcnd] at hx
        rw [hs5ep] at hx
        by_cases hhp : h = pe.Hash
        · rw [if_pos hhp] at hx
          cases hx
          rw [hhp]
        · rw [if_neg hhp] at hx
          exact hInv.hash_key h x hx
    · intro h x hx
      rw [hBep] at hx
      by_cases hcnd : h ∈ getProposals s5 pe.id ∧ h ≠ pe.Hash
      · rw [if_pos hcnd] at hx
        cases hx
      · rw [if_neg hcnd] at hx
        rw [hs5ep] at hx
        by_cases hhp : h = pe.Hash
        · rw [if_pos hhp] at hx
          cases hx
          exact hInv.peers_lo p ep hp
        · rw [if_neg hhp] at hx
          exact hInv.peers_lo h x hx
    · intro h x hx
      rw [hBep] at hx
      by_cases hcnd : h ∈ getProposals s5 pe.id ∧ h ≠ pe.Hash
      · rw [if_pos hcnd] at hx
        cases hx
      · rw [if_neg hcnd] at hx
        rw [hs5ep] at hx
        by_cases hhp : h = pe.Hash
        · rw [if_pos hhp] at hx
          cases hx
          exact hInv.peers_hi p ep hp
        · rw [if_neg hhp] at hx
          exact hInv.peers_hi h x hx
    · intro h x cur' hcur' hx hstx
      rw [hGetB] at hcur'
      cases hcur'
      rw [hBep] at hx
      by_cases hcnd : h ∈ getProposals s5 pe.id ∧ h ≠ pe.Hash
      · rw [if_pos hcnd] at hx
        cases hx
      · rw [if_neg hcnd] at hx
        rw [hs5ep] at hx
        by_cases hhp : h = pe.Hash
        · rw [if_pos hhp] at hx
          cases hx
          exact le_refl _
        · rw [if_neg hhp] at hx
          have := hInv.passed_le h x cur hc hx hstx
          rw [hpeid]
          omega
    · intro h x cur' hcur' hx hstx
      exact (hnoprop h x hx hstx).elim
    · intro h x cur' hcur' hx hstx
      exact (hnoprop h x hx hstx).elim
    · intro h hx
      rw [hBep] at hx
      rw [hBvotes]
      by_cases hcnd : h ∈ getProposals s5 pe.id ∧ h ≠ pe.Hash
      · rw [if_pos hcnd]
      · rw [if_neg hcnd] at hx ⊢
        rw [hs5ep] at hx
        by_cases hhp : h = pe.Hash
        · rw [if_pos hhp] at hx
          cases hx
        · rw [if_neg hhp] at hx
          have hsv := hInv.votes_empty h hx
          have hup : s5.votes h = s.votes h := by
            rw [hs5votes]
            exact hs2votes_ne h (fun hxx => hhp (by rw [hxx, ← hpeh]))
          rw [hup, hsv]
    · intro j x hm
      exact hInv.index_id j x (hBpropm j x hm)
    · intro h x cur' hcur' hx hstx
      exact (hnoprop h x hx hstx).elim
  · -- below quorum: no transition effects
    rw [voteCore_below s1 ctx cur ep e p hteq]
    dsimp only
    have htlt : voteSize (storeVote (storeVoteTo s1 e ctx.txOrigin p) p ctx.txOrigin) p <
        cur.QuorumSize := by omega
    have hget2 : GetCurrentEpoch
        (storeVote (storeVoteTo s1 e ctx.txOrigin p) p ctx.txOrigin) = some cur := by
      refine getCurrentEpoch_mk _ ch0 cur (by rw [hs2ch]; exact hch0) ?_
      rw [hs2ep]
      exact hcur0
    refine ⟨⟨cur, hget2⟩, ?_, ?_, ?_, ?_, ?_, ?_, ?_, ?_, ?_⟩
    · intro h x hx
      rw [hs2ep] at hx
      exact hInv.hash_key h x hx
    · intro h x hx
      rw [hs2ep] at hx
      exact hInv.peers_lo h x hx
    · intro h x hx
      rw [hs2ep] at hx
      exact hInv.peers_hi h x hx
    · intro h x cur' hcur' hx hstx
      rw [hget2] at hcur'
      cases hcur'
      rw [hs2ep] at hx
      exact hInv.passed_le h x cur hc hx hstx
    · intro h x cur' hcur' hx hstx
      rw [hget2] at hcur'
      cases hcur'
      rw [hs2ep] at hx
      exact hInv.proposed_id h x cur hc hx hstx
    · intro h x cur' hcur' hx hstx
      rw [hget2] at hcur'
      cases hcur'
      rw [hs2ep] at hx
      rw [hs2prop]
      exact hInv.proposed_indexed h x cur hc hx hstx
    · intro h hx
      rw [hs2ep] at hx
      have hne : h ≠ p := by
        intro hxx
        rw [hxx, hp] at hx
        cases hx
      rw [hs2votes_ne h hne]
      exact hInv.votes_empty h hx
    · intro j x hm
      rw [hs2prop] at hm
      exact hInv.index_id j x hm
    · intro h x cur' hcur' hx hstx
      rw [hget2] at hcur'
      cases hcur'
      rw [hs2ep] at hx
      by_cases hhp : h = p
      · subst hhp
        unfold voteSize
        exact htlt
      · have ht := hInv.tally_lt h x cur hc hx hstx
        unfold voteSize
        rw [hs2votes_ne h hhp]
        exact ht

/-- Every reachable storage state satisfies the invariant. -/
theorem inv_reachable (s : State) (hr : Reachable s) : Inv s := by
  induction hr with
  | init ep hst hlo hhi => exact inv_genesis ep hst hlo hhi
  | propose s ctx peersIn sh hr ih => exact inv_propose s ctx peersIn sh ih
  | vote s ctx e p hr ih => exact inv_vote s ctx e p ih
  | sign s ctx m i a hr ih => exact inv_sign s ctx m i a ih

/-- C10: in every reachable storage state, a proposal record that is
still in status Proposed has a vote tally strictly below the current
epoch's quorum size — so Vote's early-success branch for an at-or-above
quorum proposal still in status Proposed is never taken, the
Passed-status check having already rejected any proposal that reached
quorum. -/
theorem c10_tally_invariant (s : State) (hr : Reachable s) :
    ∀ h ep cur, GetCurrentEpoch s = some cur → s.epochs h = some ep →
      ep.status = ProposalStatus.proposed → voteSize s h < cur.QuorumSize :=
  fun h ep cur hc hp hst => (inv_reachable s hr).tally_lt h ep cur hc hp hst

/-- C10 witness: the state with proposal A freshly proposed is reachable
and A's tally (one self-vote) is below the quorum of the 4-member
genesis epoch. -/
theorem c10_witness : voteSize sA hashA < ep0.QuorumSize :=
  c10_tally_invariant sA
    (Reachable.propose genesisState (ctxOf 1) peersA 0
      (Reachable.init ep0 (by decide) (by decide) (by decide)))
    hashA epA ep0 (by decide) (by decide) (by decide)

end NodeManager
